import Mathlib

/-!
Verification of the CytoGenesis colonization-simulation core.

This file gives a shallow embedding, in Lean 4, of the simulation core of the
CytoGenesis repository and proves (or refutes) the frozen claims about it.

Modelling conventions:
* Python floats are embedded as exact rationals (`ℚ`) in the simulation core;
  the ProcessTracker, whose growth-rate estimator uses the transcendental
  `math.log`, is embedded over the reals (`ℝ`) with `Real.log`.
* Python dictionaries (insertion ordered) are embedded as association lists
  `List (Coord × β)`; updating an existing key maps over the list (position
  preserved, as in CPython), inserting a fresh key appends at the end.
* Randomness (`random.choice`, `numpy.random.choice`, `random.uniform`) is
  abstracted into explicit parameters: a chooser function for replication-site
  selection, an index list for the sampling of initial cell positions, and a
  draw `u ∈ [-1, 1]` for the randomized initial cell energy.  The contracts
  those library functions guarantee (membership of the choice in the candidate
  list, distinctness of indices drawn without replacement) appear as
  hypotheses.
* Purely cosmetic state (pixel positions, vertices, body colors, highlight
  ticks, cell radius) is omitted: none of the claims mention it and it never
  feeds back into the simulation values.
-/

namespace CytoGenesis

/-- Axial coordinate of a hexagon, `(r, q)` as in the source. -/
abbrev Coord := ℤ × ℤ

/-- The slice of `core_modules/game_state.py`'s `GameState` that the
simulation core reads (configuration values for one colonization round). -/
structure GameState where
  number_cells : ℕ
  current_level : ℕ
  cell_division_threshold : ℚ
  cell_energy_consumption_rate_maximum : ℚ
  cell_energy_affinity : ℚ
  cell_energy_initial : ℚ
  cell_energy_variation : ℚ
  deriving Repr, DecidableEq

/-- `core_modules/simulator.py`, `update_nutrient_value`: the per-tick Monod
transfer function between a tile's nutrient and the occupying cell's energy.
Returns `(nutrient_value, energy_value, growth)`. -/
def update_nutrient_value (nutrient_value energy_value : ℚ) (growth : Bool)
    (energy_consumption_rate_maximum energy_affinity division_threshold : ℚ) :
    ℚ × ℚ × Bool :=
  if ¬growth ∨ nutrient_value ≤ 0 then
    (nutrient_value, energy_value, growth)
  else
    let nutrient_uptake :=
      energy_consumption_rate_maximum * nutrient_value / (nutrient_value + energy_affinity)
    let nutrient_uptake := min nutrient_uptake nutrient_value
    let max_possible_uptake := division_threshold - energy_value
    let nutrient_uptake := min nutrient_uptake max_possible_uptake
    let nutrient_value' := nutrient_value - nutrient_uptake
    let energy_value' := energy_value + nutrient_uptake
    if |nutrient_value'| < 1/200 then
      (0, energy_value', false)
    else
      (nutrient_value', energy_value', growth)

/-- The clamped nutrient uptake computed by `update_nutrient_value` in its
growing branch: the Monod-kinetics uptake, capped by the available nutrient
and by the headroom to the division threshold. -/
def uptake (nutrient_value energy_value ecm aff thr : ℚ) : ℚ :=
  min (min (ecm * nutrient_value / (nutrient_value + aff)) nutrient_value)
    (thr - energy_value)

/-- Simulation-relevant state of `core_modules/cell.py`'s `Cell`.  The cell's
coordinate is kept as the key of the cell-line dictionary (as the source does);
the purely visual fields (`coordinate_pixel`, `radius`,
`default_division_threshold`, which only feeds the radius) are omitted. -/
structure Cell where
  energy_value : ℚ
  growth : Bool
  energy_affinity : ℚ
  division_threshold : ℚ
  energy_consumption_rate_maximum : ℚ
  deriving Repr, DecidableEq

/-- `Cell.__init__`: the new cell copies its kinetic parameters from the game
state, starts with `growth = true`, and gets energy
`min(initial * (1 + variation * uniform(-1, 1)), division_threshold)`.
The `random.uniform(-1, 1)` draw is the explicit parameter `u`.
Note that the constructor performs no validation of the configuration. -/
def Cell.init (game_state : GameState) (u : ℚ) : Cell :=
  { growth := true
    energy_affinity := game_state.cell_energy_affinity
    division_threshold := game_state.cell_division_threshold
    energy_value := min
      (game_state.cell_energy_initial * (1 + game_state.cell_energy_variation * u))
      game_state.cell_division_threshold
    energy_consumption_rate_maximum := game_state.cell_energy_consumption_rate_maximum }

/-- Lookup in an association list embedding a Python dictionary. -/
def lookupKey {β : Type} (k : Coord) : List (Coord × β) → Option β
  | [] => none
  | p :: t => if p.1 = k then some p.2 else lookupKey k t

/-- Value update at an existing key of a Python dictionary: the entry keeps
its position (CPython semantics); absent keys are untouched. -/
def setKey {β : Type} (k : Coord) (f : β → β) (l : List (Coord × β)) :
    List (Coord × β) :=
  l.map fun p => if p.1 = k then (p.1, f p.2) else p

/-- The key list of an embedded dictionary, in insertion order. -/
def keysOf {β : Type} (l : List (Coord × β)) : List Coord := l.map Prod.fst

/-- `d[k] = v` on a Python dictionary: replace in place if the key exists,
append otherwise. -/
def dictInsert {β : Type} (k : Coord) (v : β) (l : List (Coord × β)) :
    List (Coord × β) :=
  if (lookupKey k l).isSome then setKey k (fun _ => v) l else l ++ [(k, v)]

/-- `utils.calculate_hexagon_neighbors`: the 6 axial neighbors. -/
def calculate_hexagon_neighbors (axial_coordinate : Coord) : List Coord :=
  [(-1 + axial_coordinate.1, 0 + axial_coordinate.2),
   (-1 + axial_coordinate.1, 1 + axial_coordinate.2),
   (0 + axial_coordinate.1, -1 + axial_coordinate.2),
   (0 + axial_coordinate.1, 1 + axial_coordinate.2),
   (1 + axial_coordinate.1, -1 + axial_coordinate.2),
   (1 + axial_coordinate.1, 0 + axial_coordinate.2)]

/-- `CellLine.replicate_cell`.  `hexagons` is the grid's tile dictionary
(coordinate → nutrient value), `cells` the cell-line dictionary.  `choose`
stands for `random.choice` on the unoccupied-neighbor list (the theorems
assume only its contract: the choice belongs to the list).  The daughter
cell's randomized constructor energy is immediately overwritten with the
halved mother energy, so the constructor's `uniform` draw is irrelevant and
instantiated at `0`; the daughter tile's highlight is cosmetic and omitted. -/
def replicate_cell (game_state : GameState) (choose : List Coord → Coord)
    (hexagons : List (Coord × ℚ)) (cells : List (Coord × Cell))
    (cell_coordinate : Coord) : List (Coord × Cell) × Option Coord :=
  let neighbor_coordinates := calculate_hexagon_neighbors cell_coordinate
  let unoccupied_neighbors_coordinates := neighbor_coordinates.filter
    (fun c => (lookupKey c hexagons).isSome && (lookupKey c cells).isNone)
  if unoccupied_neighbors_coordinates.isEmpty then
    (setKey cell_coordinate (fun c => { c with growth := false }) cells, none)
  else
    let daughter_coordinates := choose unoccupied_neighbors_coordinates
    let cells1 := setKey cell_coordinate
      (fun c => { c with energy_value := c.energy_value / 2 }) cells
    let mother_energy := ((lookupKey cell_coordinate cells1).map Cell.energy_value).getD 0
    let daughter_cell := { Cell.init game_state 0 with energy_value := mother_energy }
    (dictInsert daughter_coordinates daughter_cell cells1, some daughter_coordinates)

/-- `CellLine.get_biomass`: total energy over all live cells. -/
def get_biomass (cells : List (Coord × Cell)) : ℚ :=
  (cells.map (fun p => p.2.energy_value)).sum

/-- `CellLine._scale_energy_consumption_rate`. -/
def scale_energy_consumption_rate (energy_consumption_rate : ℚ)
    (current_level : ℕ) : ℚ :=
  energy_consumption_rate *
    (1/2 + 1/2 * ((current_level : ℚ) / (1 + (current_level : ℚ))))

/-- `CellLine._generate_random_positions`.  `selected_indices` stands for the
result of `numpy.random.choice(len(coords), size=number_cells, replace=False,
p=probabilities)`; its contract — `number_cells` distinct valid indices — is a
hypothesis of the theorems using this definition.  The Gaussian weights
(`_gaussian_probability`, strictly positive for every distance) only shape the
distribution of that draw and cannot affect the properties claimed here. -/
def generate_random_positions (hexagons : List (Coord × ℚ))
    (selected_indices : List ℕ) : List Coord :=
  let random_coordinates := keysOf hexagons
  selected_indices.map (fun i => random_coordinates.getD i (0, 0))

/-- The cell inserted by `_create_cells` for constructor draw `u`: a freshly
constructed cell whose consumption rate is then scaled by the level factor. -/
def initial_cell (game_state : GameState) (u : ℚ) : Cell :=
  let scaled_rate := scale_energy_consumption_rate
    game_state.cell_energy_consumption_rate_maximum game_state.current_level
  { Cell.init game_state u with energy_consumption_rate_maximum := scaled_rate }

/-- `CellLine._create_cells`: clamp the requested cell count to the tile
count, draw that many distinct positions, and insert one cell per position
(with the consumption rate scaled by the level factor).  `us i` is the
constructor's `uniform(-1, 1)` draw for the `i`-th cell. -/
def create_cells (game_state : GameState) (hexagons : List (Coord × ℚ))
    (selected_indices : List ℕ) (us : ℕ → ℚ) : List (Coord × Cell) :=
  let number_cells := min game_state.number_cells hexagons.length
  let coordinates := generate_random_positions hexagons selected_indices
  (List.range number_cells).foldl
    (fun cells i =>
      dictInsert (coordinates.getD i (0, 0)) (initial_cell game_state (us i)) cells)
    []

/-- `list(range(-distance, distance + 1))`, the `base_vector` of
`HexagonGrid._get_neighbor_coordinates_with_distance`. -/
def base_vector (distance : ℕ) : List ℤ :=
  (List.range (2 * distance + 1)).map (fun i : ℕ => (i : ℤ) - (distance : ℤ))

/-- `utils.cube_to_axial` (`convert_cube_to_axial` at the import site):
drop the `s` component. -/
def convert_cube_to_axial (c : ℤ × ℤ × ℤ) : Coord := (c.1, c.2.1)

/-- `HexagonGrid._get_neighbor_coordinates_with_distance`: enumerate all cube
coordinates `(r, q, s)` with components in `[-d, d]` and `r + q + s = 0`,
convert to axial, translate by the center. -/
def neighbor_coordinates_with_distance (center : Coord) (distance : ℕ) :
    List Coord :=
  (base_vector distance).flatMap fun r =>
    (base_vector distance).flatMap fun q =>
      (base_vector distance).filterMap fun s =>
        if r + q + s = 0 then
          some ((convert_cube_to_axial (r, q, s)).1 + center.1,
                (convert_cube_to_axial (r, q, s)).2 + center.2)
        else none

/-- `HexagonGrid._create_hexagon_ring`: one tile per enumerated coordinate.
`create_hexagon`'s nutrient value
`min(exp(-variation * distance) * (1 + uniform(-richness, richness)), 1)`
depends on a per-tile random draw and the transcendental `exp`; it is
abstracted into the per-tile value function `nutrient`. -/
def create_hexagon_ring (number_rings : ℕ) (nutrient : Coord → ℚ) :
    List (Coord × ℚ) :=
  (neighbor_coordinates_with_distance (0, 0) number_rings).foldl
    (fun grid c => dictInsert c (nutrient c) grid) []

/-- The simulation state of one colonization round: the tile dictionary
(coordinate → nutrient value) and the cell-line dictionary. -/
structure SimState where
  hexagons : List (Coord × ℚ)
  cells : List (Coord × Cell)
  deriving Repr, DecidableEq

/-- Processing of one snapshot entry inside the per-tick loop of
`ColonizationPhase.run_colonization_phase`: if the (current) cell at this
coordinate is growing, mark the round as still running, attempt replication
when its energy has reached the configured division threshold, then run the
tile's nutrient exchange for (the possibly halved) cell.  The accumulator is
the current state together with the `level_running` flag. -/
def cell_step (game_state : GameState) (choose : List Coord → Coord)
    (acc : SimState × Bool) (entry : Coord × Cell) : SimState × Bool :=
  let s := acc.1
  match lookupKey entry.1 s.cells with
  | none => acc
  | some cell =>
    if cell.growth then
      let cells1 :=
        if game_state.cell_division_threshold ≤ cell.energy_value then
          (replicate_cell game_state choose s.hexagons s.cells entry.1).1
        else s.cells
      let cell1 := (lookupKey entry.1 cells1).getD cell
      let n := (lookupKey entry.1 s.hexagons).getD 0
      let r := update_nutrient_value n cell1.energy_value cell1.growth
        cell1.energy_consumption_rate_maximum cell1.energy_affinity
        cell1.division_threshold
      ({ hexagons := setKey entry.1 (fun _ => r.1) s.hexagons,
         cells := setKey entry.1
           (fun c => { c with energy_value := r.2.1, growth := r.2.2 }) cells1 },
       true)
    else acc

/-- One tick of the round loop: iterate over a snapshot of the cell items
(the source iterates over `list(cell_line.cells.items())`), threading the
state and the `level_running` flag. -/
def colonization_tick (game_state : GameState) (choose : List Coord → Coord)
    (s : SimState) : SimState × Bool :=
  s.cells.foldl (cell_step game_state choose) (s, false)

/-- The state after `n` ticks of the round loop; `choose k` is the
replication-site chooser used during tick `k` (randomness stream). -/
def run_colonization (game_state : GameState)
    (choose : ℕ → List Coord → Coord) (s : SimState) : ℕ → SimState
  | 0 => s
  | n + 1 =>
    (colonization_tick game_state (choose n)
      (run_colonization game_state choose s n)).1

/-- The `level_running` flag observed by tick `n`; the loop leaves `RUNNING`
(reaches `DONE`) at the first tick whose flag is `false`. -/
def level_running (game_state : GameState)
    (choose : ℕ → List Coord → Coord) (s : SimState) (n : ℕ) : Bool :=
  (colonization_tick game_state (choose n)
    (run_colonization game_state choose s n)).2

/-- `core_modules/process_tracker.py`'s tracked series.  The wall-clock
`start_time` is modelled out: `update` receives the elapsed `current_time`
directly (together with the biomass and substrate aggregates it reads from
the cell line and the grid). -/
structure ProcessTracker where
  timestamps : List ℝ
  total_biomass : List ℝ
  growth_rate : List ℝ
  total_substrate : List ℝ
  previous_biomass : ℝ
  previous_time : ℝ

/-- `ProcessTracker.__init__` / `ProcessTracker.reset`: all series empty. -/
def ProcessTracker.empty : ProcessTracker :=
  { timestamps := [], total_biomass := [], growth_rate := [],
    total_substrate := [], previous_biomass := 0, previous_time := 0 }

/-- `ProcessTracker.update`.  Appends the current sample to the time, biomass
and substrate series, then appends exactly one growth-rate value: over the
trailing window of at most the 5 most recent samples, the log of the biomass
ratio — floored by `epsilon = 1e-10` and clamped into `[0.1, 10]` — divided by
the time delta and clamped into `[-5, 5]`; `0` when fewer than two samples
exist, the time delta is non-positive, or either biomass endpoint is
non-positive.  (Noncomputable because the source uses `math.log`.) -/
noncomputable def ProcessTracker.update (t : ProcessTracker)
    (current_time current_biomass current_substrate : ℝ) : ProcessTracker :=
  let timestamps := t.timestamps ++ [current_time]
  let total_biomass := t.total_biomass ++ [current_biomass]
  let total_substrate := t.total_substrate ++ [current_substrate]
  let gr : ℝ :=
    if 2 ≤ total_biomass.length then
      let window_size := min 5 total_biomass.length
      if 2 ≤ window_size then
        let start_idx := total_biomass.length - window_size
        let start_biomass := total_biomass.getD start_idx 0
        let end_biomass := current_biomass
        let start_time := timestamps.getD start_idx 0
        let end_time := current_time
        let time_diff := end_time - start_time
        if 0 < time_diff ∧ 0 < start_biomass ∧ 0 < end_biomass then
          let epsilon : ℝ := 1 / 10 ^ 10
          let biomass_ratio := max (end_biomass / max start_biomass epsilon) epsilon
          let biomass_ratio := max (1 / 10) (min biomass_ratio 10)
          let growth_rate := Real.log biomass_ratio / time_diff
          max (-5) (min growth_rate 5)
        else 0
      else 0
    else 0
  { timestamps := timestamps
    total_biomass := total_biomass
    growth_rate := t.growth_rate ++ [gr]
    total_substrate := total_substrate
    previous_biomass := current_biomass
    previous_time := current_time }

/-- `ProcessTracker.initialize_with_initial_state`: reset, then record one
initial sample with growth rate `0` at time `0`. -/
def ProcessTracker.initialize_with_initial_state
    (initial_biomass initial_substrate : ℝ) : ProcessTracker :=
  { timestamps := [0], total_biomass := [initial_biomass], growth_rate := [0],
    total_substrate := [initial_substrate],
    previous_biomass := initial_biomass, previous_time := 0 }

/-- All four tracked series have the same length (the shape invariant of
claim C10). -/
def ProcessTracker.lengths_ok (t : ProcessTracker) : Prop :=
  t.timestamps.length = t.total_biomass.length ∧
  t.growth_rate.length = t.total_biomass.length ∧
  t.total_substrate.length = t.total_biomass.length

/-- The growth-rate value prescribed (after amendment of claim C3) for the
sample just appended, as a standalone formula over the full time and biomass
series including that sample: log of the window biomass ratio — floored by
`epsilon` and clamped into `[0.1, 10]` — over the window time delta, clamped
into `[-5, 5]`, and `0` on a non-positive time delta or non-positive biomass
endpoint.  The original claim C3 states this without the ratio clamping. -/
noncomputable def growth_rate_spec (times biomass : List ℝ) : ℝ :=
  let n := biomass.length
  let start_idx := n - min 5 n
  let start_biomass := biomass.getD start_idx 0
  let end_biomass := biomass.getD (n - 1) 0
  let start_time := times.getD start_idx 0
  let end_time := times.getD (n - 1) 0
  let time_diff := end_time - start_time
  if 2 ≤ n ∧ 0 < time_diff ∧ 0 < start_biomass ∧ 0 < end_biomass then
    let epsilon : ℝ := 1 / 10 ^ 10
    let ratio := max (end_biomass / max start_biomass epsilon) epsilon
    let ratio := max (1 / 10) (min ratio 10)
    max (-5) (min (Real.log ratio / time_diff) 5)
  else 0

/-- Lower bound on the Monod uptake of a cell while its tile still holds at
least the exhaustion threshold `1/200` of nutrient (the Monod rate is
monotone in the nutrient level). -/
def uptake_floor (cell : Cell) : ℚ :=
  cell.energy_consumption_rate_maximum * (1/200) /
    (1/200 + cell.energy_affinity)

/-- Termination potential of one cell entry with tile nutrient `n`: an upper
bound on the number of ticks this cell can still be processed as growing. -/
def cell_potential (game_state : GameState) (cell : Cell) (n : ℚ) : ℕ :=
  if cell.growth then
    (⌈n / uptake_floor cell⌉).toNat +
      (if cell.energy_value < game_state.cell_division_threshold then 2 else 1)
  else 0

/-- Number of grid tiles not occupied by a cell. -/
def free_tile_count (s : SimState) : ℕ :=
  ((keysOf s.hexagons).filter (fun c => (lookupKey c s.cells).isNone)).length

/-- Total termination potential of all cells. -/
def potential_sum (game_state : GameState) (s : SimState) : ℕ :=
  (s.cells.map (fun p => cell_potential game_state p.2
    ((lookupKey p.1 s.hexagons).getD 0))).sum

/-- The termination measure decreases: fewer free tiles, or equally many free
tiles and a smaller total potential. -/
def measure_lt (game_state : GameState) (s' s : SimState) : Prop :=
  free_tile_count s' < free_tile_count s ∨
    (free_tile_count s' = free_tile_count s ∧
      potential_sum game_state s' < potential_sum game_state s)

/-- The conditions under which the round loop provably terminates (the claim
C5 amendment): well-formed dictionaries, positive kinetic parameters, per-cell
thresholds equal to the configured one, cell energies within the threshold,
and positive nutrient on every unoccupied tile and every tile under a cell
that is still growing.  All are established by round setup under a valid
configuration, except that a tile of nutrient exactly `0` (possible when
`hexagon_nutrient_richness = 1`) violates the last two clauses — and then the
loop can indeed run forever (see the counterexample). -/
def LoopInv (game_state : GameState) (s : SimState) : Prop :=
  (keysOf s.hexagons).Nodup ∧
  (keysOf s.cells).Nodup ∧
  (∀ p ∈ s.cells, (lookupKey p.1 s.hexagons).isSome) ∧
  0 < game_state.cell_division_threshold ∧
  0 < game_state.cell_energy_affinity ∧
  0 < game_state.cell_energy_consumption_rate_maximum ∧
  (∀ p ∈ s.cells,
    p.2.division_threshold = game_state.cell_division_threshold ∧
    0 < p.2.energy_affinity ∧
    0 < p.2.energy_consumption_rate_maximum ∧
    p.2.energy_value ≤ game_state.cell_division_threshold) ∧
  (∀ q ∈ s.hexagons, lookupKey q.1 s.cells = none → 0 < q.2) ∧
  (∀ p ∈ s.cells, p.2.growth = true → 0 < (lookupKey p.1 s.hexagons).getD 0)

theorem uptake_le_nutrient (n e ecm aff thr : ℚ) : uptake n e ecm aff thr ≤ n :=
  le_trans (min_le_left _ _) (min_le_right _ _)

theorem uptake_le_headroom (n e ecm aff thr : ℚ) :
    uptake n e ecm aff thr ≤ thr - e := min_le_right _ _

theorem update_nutrient_value_no_growth (n e : ℚ) (ecm aff thr : ℚ) :
    update_nutrient_value n e false ecm aff thr = (n, e, false) := by
  simp [update_nutrient_value]

theorem update_nutrient_value_depleted (n e : ℚ) (g : Bool) (ecm aff thr : ℚ)
    (hn : n ≤ 0) : update_nutrient_value n e g ecm aff thr = (n, e, g) := by
  simp [update_nutrient_value, hn]

/-- Evaluation of the simulator in the growing branch, in terms of `uptake`. -/
theorem update_nutrient_value_growth (n e : ℚ) (ecm aff thr : ℚ) (hn : 0 < n) :
    update_nutrient_value n e true ecm aff thr =
      if |n - uptake n e ecm aff thr| < 1/200 then
        (0, e + uptake n e ecm aff thr, false)
      else
        (n - uptake n e ecm aff thr, e + uptake n e ecm aff thr, true) := by
  have hc : ¬(¬(true : Bool) = true ∨ n ≤ 0) := by simp [not_le.mpr hn]
  unfold update_nutrient_value
  rw [if_neg hc]
  rfl

section AssocList

variable {β : Type}

theorem lookupKey_nil (k : Coord) : lookupKey k ([] : List (Coord × β)) = none := rfl

theorem lookupKey_cons (k : Coord) (p : Coord × β) (t : List (Coord × β)) :
    lookupKey k (p :: t) = if p.1 = k then some p.2 else lookupKey k t := rfl

theorem setKey_nil (k : Coord) (f : β → β) : setKey k f ([] : List (Coord × β)) = [] := rfl

theorem setKey_cons (k : Coord) (f : β → β) (p : Coord × β) (t : List (Coord × β)) :
    setKey k f (p :: t) = (if p.1 = k then (p.1, f p.2) else p) :: setKey k f t := by
  simp [setKey]

theorem keysOf_nil : keysOf ([] : List (Coord × β)) = [] := rfl

theorem keysOf_cons (p : Coord × β) (t : List (Coord × β)) :
    keysOf (p :: t) = p.1 :: keysOf t := rfl

theorem lookupKey_eq_none {k : Coord} {l : List (Coord × β)} :
    lookupKey k l = none ↔ k ∉ keysOf l := by
  induction l with
  | nil => simp [lookupKey_nil, keysOf_nil]
  | cons p t ih =>
    rw [lookupKey_cons, keysOf_cons]
    by_cases h : p.1 = k
    · simp [h]
    · simp [h, ih, Ne.symm h]

theorem lookupKey_isSome {k : Coord} {l : List (Coord × β)} :
    (lookupKey k l).isSome = true ↔ k ∈ keysOf l := by
  rw [Option.isSome_iff_ne_none]
  exact not_iff_comm.mp lookupKey_eq_none.symm

theorem lookupKey_setKey_self (k : Coord) (f : β → β) (l : List (Coord × β)) :
    lookupKey k (setKey k f l) = (lookupKey k l).map f := by
  induction l with
  | nil => rfl
  | cons p t ih =>
    rw [setKey_cons]
    by_cases h : p.1 = k
    · rw [if_pos h, lookupKey_cons, lookupKey_cons, if_pos h]
      simp [h]
    · rw [if_neg h, lookupKey_cons, lookupKey_cons, if_neg h, if_neg h, ih]

theorem lookupKey_setKey_ne {k k' : Coord} (h : k' ≠ k) (f : β → β)
    (l : List (Coord × β)) : lookupKey k' (setKey k f l) = lookupKey k' l := by
  induction l with
  | nil => rfl
  | cons p t ih =>
    rw [setKey_cons]
    by_cases hp : p.1 = k
    · have hp1 : ¬p.1 = k' := fun hk => h (hk.symm.trans hp)
      rw [if_pos hp, lookupKey_cons, lookupKey_cons]
      simp only [hp1, if_false, ih]
    · rw [if_neg hp, lookupKey_cons, lookupKey_cons, ih]

theorem keysOf_setKey (k : Coord) (f : β → β) (l : List (Coord × β)) :
    keysOf (setKey k f l) = keysOf l := by
  induction l with
  | nil => rfl
  | cons p t ih =>
    rw [setKey_cons, keysOf_cons, keysOf_cons, ih]
    by_cases h : p.1 = k
    · rw [if_pos h]
    · rw [if_neg h]

theorem length_setKey (k : Coord) (f : β → β) (l : List (Coord × β)) :
    (setKey k f l).length = l.length := by
  simp [setKey]

theorem lookupKey_append (k : Coord) (l₁ l₂ : List (Coord × β)) :
    lookupKey k (l₁ ++ l₂) =
      match lookupKey k l₁ with
      | some v => some v
      | none => lookupKey k l₂ := by
  induction l₁ with
  | nil => simp [lookupKey_nil]
  | cons p t ih =>
    rw [List.cons_append, lookupKey_cons, lookupKey_cons]
    by_cases h : p.1 = k <;> simp [h, ih]

theorem lookupKey_mem {k : Coord} {v : β} {l : List (Coord × β)}
    (h : lookupKey k l = some v) : (k, v) ∈ l := by
  induction l with
  | nil => cases h
  | cons p t ih =>
    rw [lookupKey_cons] at h
    by_cases hp : p.1 = k
    · rw [if_pos hp] at h
      cases h
      exact List.mem_cons.mpr (Or.inl (Prod.ext_iff.mpr ⟨hp.symm, rfl⟩))
    · rw [if_neg hp] at h
      exact List.mem_cons_of_mem _ (ih h)

theorem mem_lookupKey {k : Coord} {v : β} {l : List (Coord × β)}
    (hnd : (keysOf l).Nodup) (h : (k, v) ∈ l) : lookupKey k l = some v := by
  induction l with
  | nil => cases h
  | cons p t ih =>
    rw [keysOf_cons, List.nodup_cons] at hnd
    rw [lookupKey_cons]
    rcases List.mem_cons.mp h with h1 | h1
    · rw [← h1]
      simp
    · have hk : p.1 ≠ k := by
        intro hpk
        refine hnd.1 ?_
        rw [hpk]
        exact List.mem_map.mpr ⟨(k, v), h1, rfl⟩
      rw [if_neg hk]
      exact ih hnd.2 h1

end AssocList

/-- Claim C6: whenever `replicate_cell` succeeds (some neighbor of the mother
is an unoccupied grid tile), the mother's and the daughter's energy values
both equal half of the mother's pre-replication energy, so their total equals
the pre-replication mother energy; the daughter's randomized construction
energy is overwritten and never observable. -/
theorem C6_replication_energy_split (game_state : GameState)
    (choose : List Coord → Coord) (hexagons : List (Coord × ℚ))
    (cells : List (Coord × Cell)) (cell_coordinate : Coord) (mother : Cell)
    (hm : lookupKey cell_coordinate cells = some mother)
    (hchoose : choose ((calculate_hexagon_neighbors cell_coordinate).filter
      (fun c => (lookupKey c hexagons).isSome && (lookupKey c cells).isNone)) ∈
      (calculate_hexagon_neighbors cell_coordinate).filter
      (fun c => (lookupKey c hexagons).isSome && (lookupKey c cells).isNone)) :
    (replicate_cell game_state choose hexagons cells cell_coordinate).2 =
      some (choose ((calculate_hexagon_neighbors cell_coordinate).filter
        (fun c => (lookupKey c hexagons).isSome && (lookupKey c cells).isNone))) ∧
    ((lookupKey cell_coordinate
        (replicate_cell game_state choose hexagons cells cell_coordinate).1).map
      Cell.energy_value) = some (mother.energy_value / 2) ∧
    ((lookupKey (choose ((calculate_hexagon_neighbors cell_coordinate).filter
        (fun c => (lookupKey c hexagons).isSome && (lookupKey c cells).isNone)))
        (replicate_cell game_state choose hexagons cells cell_coordinate).1).map
      Cell.energy_value) = some (mother.energy_value / 2) ∧
    mother.energy_value / 2 + mother.energy_value / 2 = mother.energy_value := by
  set cands := (calculate_hexagon_neighbors cell_coordinate).filter
    (fun c => (lookupKey c hexagons).isSome && (lookupKey c cells).isNone) with hcands
  set d := choose cands with hd
  have hdn : lookupKey d cells = none := by
    have := List.of_mem_filter hchoose
    simp only [Bool.and_eq_true, Option.isNone_iff_eq_none] at this
    exact this.2
  have hdne : d ≠ cell_coordinate := by
    intro h
    rw [h, hm] at hdn
    cases hdn
  have hne : cands.isEmpty = false := by
    rcases cands with _ | _
    · cases hchoose
    · rfl
  have hlook1 : lookupKey cell_coordinate
      (setKey cell_coordinate (fun c => { c with energy_value := c.energy_value / 2 }) cells) =
      some { mother with energy_value := mother.energy_value / 2 } := by
    rw [lookupKey_setKey_self, hm]
    rfl
  have hlookd1 : lookupKey d
      (setKey cell_coordinate (fun c => { c with energy_value := c.energy_value / 2 }) cells) =
      none := by
    rw [lookupKey_setKey_ne hdne, hdn]
  simp only [replicate_cell]
  rw [← hcands, hne]
  simp only [Bool.false_eq_true, if_false, ← hd, hlook1, Option.map_some', Option.getD_some,
    dictInsert, hlookd1, Option.isSome_none]
  refine ⟨by trivial, ?_, ?_, by ring⟩
  · rw [lookupKey_append, hlook1]
    rfl
  · rw [lookupKey_append, hlookd1]
    simp [lookupKey_cons]

/-- Witness for claim C6: a one-tile-neighborhood example where the mother at
the origin with energy `1` replicates into the free tile `(1, 0)`. -/
theorem C6_replication_energy_split_witness :
    (lookupKey ((0 : ℤ), (0 : ℤ))
        [(((0 : ℤ), (0 : ℤ)), (⟨1, true, 3/10, 1, 1/40⟩ : Cell))] =
      some (⟨1, true, 3/10, 1, 1/40⟩ : Cell)) ∧
    ((replicate_cell ⟨1, 0, 1, 1/40, 3/10, 1/2, 1/5⟩ (fun l => l.headD (0, 0))
        [(((0 : ℤ), (0 : ℤ)), 1), (((1 : ℤ), (0 : ℤ)), 1)]
        [(((0 : ℤ), (0 : ℤ)), ⟨1, true, 3/10, 1, 1/40⟩)] ((0 : ℤ), (0 : ℤ))).2).isSome := by
  have h := C6_replication_energy_split ⟨1, 0, 1, 1/40, 3/10, 1/2, 1/5⟩
    (fun l => l.headD (0, 0))
    [(((0 : ℤ), (0 : ℤ)), 1), (((1 : ℤ), (0 : ℤ)), 1)]
    [(((0 : ℤ), (0 : ℤ)), ⟨1, true, 3/10, 1, 1/40⟩)] ((0 : ℤ), (0 : ℤ))
    ⟨1, true, 3/10, 1, 1/40⟩ (by rfl) (by decide)
  refine ⟨by rfl, ?_⟩
  rw [h.1]
  rfl

/-- Claim C7: when no neighbor of the mother cell is an unoccupied grid tile,
`replicate_cell` returns `None`, sets the mother's growth flag to `false`,
and changes nothing else: no cell is added, the mother's energy is unchanged,
and every other cell entry is untouched. -/
theorem C7_replication_growth_arrest (game_state : GameState)
    (choose : List Coord → Coord) (hexagons : List (Coord × ℚ))
    (cells : List (Coord × Cell)) (cell_coordinate : Coord) (mother : Cell)
    (hm : lookupKey cell_coordinate cells = some mother)
    (hempty : (calculate_hexagon_neighbors cell_coordinate).filter
      (fun c => (lookupKey c hexagons).isSome && (lookupKey c cells).isNone) = []) :
    (replicate_cell game_state choose hexagons cells cell_coordinate).2 = none ∧
    lookupKey cell_coordinate
        (replicate_cell game_state choose hexagons cells cell_coordinate).1 =
      some { mother with growth := false } ∧
    (replicate_cell game_state choose hexagons cells cell_coordinate).1.length =
      cells.length ∧
    (∀ k : Coord, k ≠ cell_coordinate →
      lookupKey k (replicate_cell game_state choose hexagons cells cell_coordinate).1 =
        lookupKey k cells) := by
  simp only [replicate_cell]
  rw [hempty]
  simp only [List.isEmpty_nil, if_true]
  refine ⟨by trivial, ?_, ?_, ?_⟩
  · rw [lookupKey_setKey_self, hm]
    rfl
  · exact length_setKey _ _ _
  · intro k hk
    exact lookupKey_setKey_ne hk _ _

/-- Witness for claim C7: a single-tile grid where the lone cell has no
neighboring tile at all, so replication fails and arrests growth. -/
theorem C7_replication_growth_arrest_witness :
    (lookupKey ((0 : ℤ), (0 : ℤ))
        [(((0 : ℤ), (0 : ℤ)), (⟨1, true, 3/10, 1, 1/40⟩ : Cell))] =
      some (⟨1, true, 3/10, 1, 1/40⟩ : Cell)) ∧
    (replicate_cell ⟨1, 0, 1, 1/40, 3/10, 1/2, 1/5⟩ (fun l => l.headD (0, 0))
      [(((0 : ℤ), (0 : ℤ)), 1)]
      [(((0 : ℤ), (0 : ℤ)), ⟨1, true, 3/10, 1, 1/40⟩)] ((0 : ℤ), (0 : ℤ))).2 = none := by
  have h := C7_replication_growth_arrest ⟨1, 0, 1, 1/40, 3/10, 1/2, 1/5⟩
    (fun l => l.headD (0, 0)) [(((0 : ℤ), (0 : ℤ)), 1)]
    [(((0 : ℤ), (0 : ℤ)), ⟨1, true, 3/10, 1, 1/40⟩)] ((0 : ℤ), (0 : ℤ))
    ⟨1, true, 3/10, 1, 1/40⟩ (by rfl) (by decide)
  exact ⟨by rfl, h.1⟩

/-- Claim C1 (counterexample): the mass-conservation identity
`new_energy - old_energy = -(new_nutrient - old_nutrient)` fails on a tick
where the exhaustion step fires, even with `growth = true` and
`nutrient_value > 0`.  With nutrient `1/250 = 0.004`, energy `0`, maximal
consumption rate `1/1000`, affinity `1/250` and threshold `10`, the uptake is
`1/2000` and the snap then discards the remaining `7/2000` of nutrient. -/
theorem C1_mass_conservation_counterexample :
    (0 : ℚ) < 1/250 ∧
    ¬ ((update_nutrient_value (1/250) 0 true (1/1000) (1/250) 10).2.1 - 0 =
        -((update_nutrient_value (1/250) 0 true (1/1000) (1/250) 10).1 - 1/250)) := by
  have h : update_nutrient_value (1/250) 0 true (1/1000) (1/250) 10
      = (0, 1/2000, false) := by
    norm_num [update_nutrient_value, min_def, abs]
  refine ⟨by norm_num, ?_⟩
  rw [h]
  norm_num

/-- Claim C1 (amended): for `growth = true` and `nutrient_value > 0`, the
update conserves mass exactly (`Δenergy = -Δnutrient`) on every tick on which
the exhaustion step does not fire (equivalently, whenever the returned growth
flag is still `true`); when the exhaustion step fires it additionally discards
the tile's residual nutrient, which is less than `1/200 = 0.005`, without
crediting it to the cell, so in general `Δenergy + Δnutrient ∈ (-1/200, 0]`. -/
theorem C1_mass_conservation_amended (n e ecm aff thr : ℚ) (hn : 0 < n) :
    ((update_nutrient_value n e true ecm aff thr).2.2 = true →
      (update_nutrient_value n e true ecm aff thr).2.1 - e =
        -((update_nutrient_value n e true ecm aff thr).1 - n)) ∧
    -(1/200) < ((update_nutrient_value n e true ecm aff thr).2.1 - e) +
        ((update_nutrient_value n e true ecm aff thr).1 - n) ∧
    ((update_nutrient_value n e true ecm aff thr).2.1 - e) +
        ((update_nutrient_value n e true ecm aff thr).1 - n) ≤ 0 := by
  rw [update_nutrient_value_growth n e ecm aff thr hn]
  have hun : uptake n e ecm aff thr ≤ n := uptake_le_nutrient n e ecm aff thr
  by_cases hsnap : |n - uptake n e ecm aff thr| < 1/200
  · rw [if_pos hsnap]
    have habs : n - uptake n e ecm aff thr < 1/200 := lt_of_abs_lt hsnap
    refine ⟨?_, ?_, ?_⟩
    · intro hfalse
      simp at hfalse
    · simp only []
      linarith
    · simp only []
      linarith
  · rw [if_neg hsnap]
    refine ⟨fun _ => ?_, ?_, ?_⟩
    · simp only []
      ring
    · simp only []
      linarith
    · simp only []
      linarith

/-- Witness for the amended claim C1 at a concrete input: nutrient `1`,
energy `0`, consumption rate `1/10`, affinity `1`, threshold `10`. -/
theorem C1_mass_conservation_amended_witness :
    (0 : ℚ) < 1 ∧
    (((update_nutrient_value 1 0 true (1/10) 1 10).2.2 = true →
      (update_nutrient_value 1 0 true (1/10) 1 10).2.1 - 0 =
        -((update_nutrient_value 1 0 true (1/10) 1 10).1 - 1)) ∧
    -(1/200) < ((update_nutrient_value 1 0 true (1/10) 1 10).2.1 - 0) +
        ((update_nutrient_value 1 0 true (1/10) 1 10).1 - 1) ∧
    ((update_nutrient_value 1 0 true (1/10) 1 10).2.1 - 0) +
        ((update_nutrient_value 1 0 true (1/10) 1 10).1 - 1) ≤ 0) :=
  ⟨by norm_num, C1_mass_conservation_amended 1 0 (1/10) 1 10 (by norm_num)⟩

/-- Claim C2: the simulator update preserves the division-threshold bound:
if the input satisfies `energy_value ≤ division_threshold`, so does the
returned energy value — the uptake is clamped by
`division_threshold - energy_value`. -/
theorem C2_division_threshold_invariant (n e : ℚ) (g : Bool) (ecm aff thr : ℚ)
    (h : e ≤ thr) :
    (update_nutrient_value n e g ecm aff thr).2.1 ≤ thr := by
  simp only [update_nutrient_value]
  split_ifs with h1 h2
  · exact h
  · have : min (min (ecm * n / (n + aff)) n) (thr - e) ≤ thr - e := min_le_right _ _
    simp only []
    linarith
  · have : min (min (ecm * n / (n + aff)) n) (thr - e) ≤ thr - e := min_le_right _ _
    simp only []
    linarith

/-- Witness for claim C2 at a concrete input. -/
theorem C2_division_threshold_invariant_witness :
    (0 : ℚ) ≤ 1 ∧ (update_nutrient_value 1 0 true (1/10) 1 1).2.1 ≤ 1 :=
  ⟨by norm_num, C2_division_threshold_invariant 1 0 true (1/10) 1 1 (by norm_num)⟩

theorem keysOf_append {β : Type} (l₁ l₂ : List (Coord × β)) :
    keysOf (l₁ ++ l₂) = keysOf l₁ ++ keysOf l₂ := by
  simp [keysOf]

theorem dictInsert_of_fresh {β : Type} {k : Coord} {l : List (Coord × β)}
    (h : lookupKey k l = none) (v : β) : dictInsert k v l = l ++ [(k, v)] := by
  simp [dictInsert, h]

/-- Folding fresh-keyed insertions over a dictionary appends them in order. -/
theorem foldl_dictInsert_of_nodup {β : Type} :
    ∀ (ps : List (Coord × β)) (acc : List (Coord × β)),
      (keysOf acc ++ keysOf ps).Nodup →
      ps.foldl (fun cells p => dictInsert p.1 p.2 cells) acc = acc ++ ps := by
  intro ps
  induction ps with
  | nil => intro acc _; simp
  | cons p t ih =>
    intro acc hnd
    have hfresh : lookupKey p.1 acc = none := by
      rw [lookupKey_eq_none]
      rw [keysOf_cons] at hnd
      have := (List.nodup_append.mp hnd).2.2
      intro hmem
      exact this hmem (List.mem_cons_self _ _)
    have hstep : dictInsert p.1 p.2 acc = acc ++ [p] := by
      rw [dictInsert_of_fresh hfresh]
    have hnd' : (keysOf (acc ++ [p]) ++ keysOf t).Nodup := by
      rw [keysOf_append]
      have hperm : ((keysOf acc ++ [p.1]) ++ keysOf t).Perm
          (keysOf acc ++ p.1 :: keysOf t) := by
        rw [List.append_assoc]
        exact List.Perm.refl _
      refine hperm.nodup_iff.mpr ?_
      rw [keysOf_cons] at hnd
      exact hnd
    calc (p :: t).foldl (fun cells q => dictInsert q.1 q.2 cells) acc
        = t.foldl (fun cells q => dictInsert q.1 q.2 cells) (dictInsert p.1 p.2 acc) := rfl
      _ = t.foldl (fun cells q => dictInsert q.1 q.2 cells) (acc ++ [p]) := by rw [hstep]
      _ = (acc ++ [p]) ++ t := by
          refine ih (acc ++ [p]) ?_
          simpa [keysOf_append] using hnd'
      _ = acc ++ p :: t := by simp

/-- Reading every position of a list back with `getD` reproduces the list. -/
theorem range_map_getD {α : Type} (d : α) :
    ∀ l : List α, (List.range l.length).map (fun i => l.getD i d) = l := by
  intro l
  induction l with
  | nil => rfl
  | cons a t ih =>
    rw [List.length_cons, List.range_succ_eq_map, List.map_cons, List.map_map]
    refine congrArg₂ (· :: ·) rfl ?_
    calc (List.range t.length).map ((fun i => (a :: t).getD i d) ∘ Nat.succ)
        = (List.range t.length).map (fun i => t.getD i d) := by
          refine List.map_congr_left ?_
          intro i _
          rfl
      _ = t := ih

/-- Claim C8: initial placement creates exactly
`min(number_cells, tile_count)` cells, on pairwise-distinct coordinates that
are all grid-tile coordinates; an oversized request is silently clamped.  The
hypotheses on `selected_indices` are the contract of
`numpy.random.choice(tile_count, size=min(...), replace=False, p=...)`:
distinct valid indices of the clamped count. -/
theorem C8_initial_placement (game_state : GameState)
    (hexagons : List (Coord × ℚ)) (selected_indices : List ℕ) (us : ℕ → ℚ)
    (hnd : (keysOf hexagons).Nodup)
    (hlen : selected_indices.length = min game_state.number_cells hexagons.length)
    (hnds : selected_indices.Nodup)
    (hbound : ∀ i ∈ selected_indices, i < hexagons.length) :
    (create_cells game_state hexagons selected_indices us).length =
      min game_state.number_cells hexagons.length ∧
    (keysOf (create_cells game_state hexagons selected_indices us)).Nodup ∧
    (∀ k ∈ keysOf (create_cells game_state hexagons selected_indices us),
      k ∈ keysOf hexagons) := by
  have hklen : (keysOf hexagons).length = hexagons.length := by
    simp [keysOf]
  have hboundk : ∀ i ∈ selected_indices, i < (keysOf hexagons).length := by
    intro i hi
    rw [hklen]
    exact hbound i hi
  set coords := generate_random_positions hexagons selected_indices with hcoords
  have hclen : coords.length = min game_state.number_cells hexagons.length := by
    rw [hcoords]
    simpa [generate_random_positions] using hlen
  have hcmem : ∀ k ∈ coords, k ∈ keysOf hexagons := by
    intro k hk
    rw [hcoords] at hk
    simp only [generate_random_positions, List.mem_map] at hk
    obtain ⟨i, hi, hik⟩ := hk
    rw [List.getD_eq_getElem _ _ (hboundk i hi)] at hik
    rw [← hik]
    exact List.getElem_mem _
  have hcnd : coords.Nodup := by
    rw [hcoords]
    simp only [generate_random_positions]
    refine List.Nodup.map_on ?_ hnds
    intro i hi j hj hij
    rw [List.getD_eq_getElem _ _ (hboundk i hi),
      List.getD_eq_getElem _ _ (hboundk j hj)] at hij
    exact (List.Nodup.getElem_inj_iff hnd).mp hij
  have hkeysmap : keysOf ((List.range coords.length).map (fun i =>
      ((coords.getD i (0, 0)), initial_cell game_state (us i)))) =
      (List.range coords.length).map (fun i => coords.getD i (0, 0)) := by
    simp [keysOf, List.map_map, Function.comp]
  have hunfold : create_cells game_state hexagons selected_indices us =
      (List.range coords.length).map (fun i =>
        ((coords.getD i (0, 0)), initial_cell game_state (us i))) := by
    simp only [create_cells, ← hcoords, ← hclen]
    rw [← List.foldl_map
      (fun i => ((coords.getD i (0, 0)), initial_cell game_state (us i)))
      (fun cells p => dictInsert p.1 p.2 cells)]
    rw [foldl_dictInsert_of_nodup _ [] ?_]
    · rw [List.nil_append]
    · rw [keysOf_nil, List.nil_append, hkeysmap, range_map_getD]
      exact hcnd
  have hkeyseq : keysOf (create_cells game_state hexagons selected_indices us) = coords := by
    rw [hunfold, hkeysmap, range_map_getD]
  refine ⟨?_, ?_, ?_⟩
  · have hlk : (keysOf (create_cells game_state hexagons selected_indices us)).length =
        coords.length := by rw [hkeyseq]
    simpa [keysOf, hclen] using hlk
  · rw [hkeyseq]
    exact hcnd
  · intro k hk
    rw [hkeyseq] at hk
    exact hcmem k hk

/-- Witness for claim C8: a 2-tile grid with 5 requested cells places exactly
2 cells on the 2 distinct tiles. -/
theorem C8_initial_placement_witness :
    ((keysOf [(((0 : ℤ), (0 : ℤ)), (1 : ℚ)), (((1 : ℤ), (0 : ℤ)), 1)]).Nodup ∧
      ([1, 0] : List ℕ).length =
        min (5 : ℕ) [(((0 : ℤ), (0 : ℤ)), (1 : ℚ)), (((1 : ℤ), (0 : ℤ)), 1)].length ∧
      ([1, 0] : List ℕ).Nodup) ∧
    (create_cells ⟨5, 0, 1, 1/40, 3/10, 1/2, 1/5⟩
        [(((0 : ℤ), (0 : ℤ)), 1), (((1 : ℤ), (0 : ℤ)), 1)] [1, 0] (fun _ => 0)).length =
      min (5 : ℕ) [(((0 : ℤ), (0 : ℤ)), (1 : ℚ)), (((1 : ℤ), (0 : ℤ)), 1)].length := by
  have h := C8_initial_placement ⟨5, 0, 1, 1/40, 3/10, 1/2, 1/5⟩
    [(((0 : ℤ), (0 : ℤ)), 1), (((1 : ℤ), (0 : ℤ)), 1)] [1, 0] (fun _ => 0)
    (by decide) (by decide) (by decide) (by decide)
  exact ⟨⟨by decide, by decide, by decide⟩, h.1⟩

theorem mem_base_vector {d : ℕ} {x : ℤ} :
    x ∈ base_vector d ↔ -(d : ℤ) ≤ x ∧ x ≤ d := by
  constructor
  · intro hx
    unfold base_vector at hx
    obtain ⟨i, hi, rfl⟩ := List.mem_map.mp hx
    rw [List.mem_range] at hi
    omega
  · intro h
    unfold base_vector
    refine List.mem_map.mpr ⟨(x + d).toNat, ?_, ?_⟩
    · rw [List.mem_range]
      omega
    · omega

theorem nodup_base_vector (d : ℕ) : (base_vector d).Nodup := by
  unfold base_vector
  refine List.Nodup.map_on ?_ (List.nodup_range _)
  intro i _ j _ h
  omega

/-- A `filterMap` that keeps a fixed value exactly at one target key, over a
duplicate-free list: a singleton when the target occurs, empty otherwise. -/
theorem filterMap_if_eq_target {α : Type} (t : ℤ) (x : α) :
    ∀ l : List ℤ, l.Nodup →
      (l.filterMap fun s => if s = t then some x else none) =
        if t ∈ l then [x] else [] := by
  intro l
  induction l with
  | nil => intro _; rfl
  | cons a l ih =>
    intro hnd
    rw [List.nodup_cons] at hnd
    rw [List.filterMap_cons]
    by_cases h : a = t
    · subst h
      have htail : (l.filterMap fun s => if s = a then some x else none) = [] := by
        rw [ih hnd.2, if_neg hnd.1]
      simp [htail]
    · simp only [h, if_false, ih hnd.2]
      by_cases ht : t ∈ l
      · rw [if_pos ht, if_pos (List.mem_cons_of_mem _ ht)]
      · rw [if_neg ht, if_neg ?_]
        intro hmem
        rcases List.mem_cons.mp hmem with h1 | h1
        · exact h h1.symm
        · exact ht h1

/-- A `flatMap` producing a singleton or nothing is a `filter` plus `map`. -/
theorem flatMap_if_singleton {α β : Type} (P : α → Prop) [DecidablePred P]
    (g : α → β) :
    ∀ l : List α, (l.flatMap fun x => if P x then [g x] else []) =
      (l.filter fun x => decide (P x)).map g := by
  intro l
  induction l with
  | nil => rfl
  | cons a l ih =>
    rw [List.flatMap_cons, List.filter_cons, ih]
    by_cases h : P a
    · rw [if_pos h, if_pos (by simpa using h), List.map_cons]
      rfl
    · rw [if_neg h, if_neg (by simpa using h), List.nil_append]

theorem inner_ring_eval {α : Type} (d : ℕ) (r q : ℤ) (x : α) :
    ((base_vector d).filterMap fun s => if r + q + s = 0 then some x else none) =
      if -(r + q) ∈ base_vector d then [x] else [] := by
  have hcong : ∀ s ∈ base_vector d, (if r + q + s = 0 then some x else none) =
      (if s = -(r + q) then some x else none) := by
    intro s _
    by_cases h : s = -(r + q)
    · rw [if_pos h, if_pos (by omega)]
    · rw [if_neg (by omega), if_neg h]
  rw [List.filterMap_congr hcong]
  exact filterMap_if_eq_target _ _ _ (nodup_base_vector d)

/-- The coordinate enumeration around the origin, as a filtered rectangle:
all `(r, q)` with `r, q ∈ [-d, d]` and `r + q ∈ [-d, d]`. -/
theorem neighbor_coordinates_eval (d : ℕ) :
    neighbor_coordinates_with_distance (0, 0) d =
      (base_vector d).flatMap fun r =>
        ((base_vector d).filter fun q =>
          decide (-(d : ℤ) - r ≤ q ∧ q ≤ (d : ℤ) - r)).map fun q => (r, q) := by
  unfold neighbor_coordinates_with_distance
  refine List.flatMap_congr ?_
  intro r _
  have hq : ∀ q ∈ base_vector d,
      ((base_vector d).filterMap fun s =>
        if r + q + s = 0 then
          some ((convert_cube_to_axial (r, q, s)).1 + (0, 0).1,
                (convert_cube_to_axial (r, q, s)).2 + (0, 0).2)
        else none) =
      (if -(d : ℤ) - r ≤ q ∧ q ≤ (d : ℤ) - r then [((r : ℤ), (q : ℤ))] else []) := by
    intro q _
    have h1 : ((base_vector d).filterMap fun s =>
        if r + q + s = 0 then
          some ((convert_cube_to_axial (r, q, s)).1 + (0, 0).1,
                (convert_cube_to_axial (r, q, s)).2 + (0, 0).2)
        else none) =
        ((base_vector d).filterMap fun s =>
          if r + q + s = 0 then some ((r : ℤ), (q : ℤ)) else none) := by
      refine List.filterMap_congr ?_
      intro s _
      by_cases h : r + q + s = 0
      · rw [if_pos h, if_pos h]
        simp [convert_cube_to_axial]
      · rw [if_neg h, if_neg h]
    rw [h1, inner_ring_eval]
    by_cases hmem : -(r + q) ∈ base_vector d
    · rw [if_pos hmem, if_pos ?_]
      have := mem_base_vector.mp hmem
      omega
    · rw [if_neg hmem, if_neg ?_]
      intro hc
      exact hmem (mem_base_vector.mpr (by omega))
  rw [List.flatMap_congr hq]
  exact flatMap_if_singleton _ _ _

/-- Sum of a constant shift distributes over a list sum. -/
theorem sum_map_add_const {α : Type} (f : α → ℕ) (c : ℕ) :
    ∀ l : List α, (l.map (fun x => f x + c)).sum = (l.map f).sum + c * l.length := by
  intro l
  induction l with
  | nil => rfl
  | cons a l ih =>
    simp only [List.map_cons, List.sum_cons, ih, List.length_cons]
    ring

/-- The tent-profile sum `∑_{i=0}^{2d} (2d + 1 - |i - d|) = 3d² + 3d + 1`. -/
theorem sum_tent_profile :
    ∀ d : ℕ, ((List.range (2*d + 1)).map (fun i => 2*d + 1 - Nat.dist i d)).sum =
      3*d*d + 3*d + 1 := by
  intro d
  induction d with
  | zero => rfl
  | succ d ih =>
    have key : List.range (2*(d + 1) + 1) =
        0 :: ((List.range (2*d + 1)).map Nat.succ ++ [(2*d + 1).succ]) := by
      have e1 : 2*(d + 1) + 1 = ((2*d + 1) + 1) + 1 := by ring
      rw [e1, List.range_succ_eq_map, List.range_succ, List.map_append]
      rfl
    rw [key, List.map_cons, List.sum_cons, List.map_append, List.map_map,
      List.sum_append]
    have h0 : Nat.dist 0 (d + 1) = d + 1 := by
      simp [Nat.dist]
    have hN : Nat.dist (2*d + 1).succ (d + 1) = d + 1 := by
      simp [Nat.dist]
      omega
    have hmid : ((List.range (2*d + 1)).map
        ((fun i => 2*(d + 1) + 1 - Nat.dist i (d + 1)) ∘ Nat.succ)).sum =
        ((List.range (2*d + 1)).map (fun i => (2*d + 1 - Nat.dist i d) + 2)).sum := by
      refine congrArg List.sum (List.map_congr_left ?_)
      intro i hi
      rw [List.mem_range] at hi
      simp only [Function.comp]
      have hd : Nat.dist (Nat.succ i) (d + 1) = Nat.dist i d := by
        simp [Nat.dist]
      rw [hd]
      have hle : Nat.dist i d ≤ 2*d := by
        simp only [Nat.dist]
        omega
      omega
    rw [hmid, sum_map_add_const, ih, List.length_range]
    simp only [List.map_cons, List.map_nil, List.sum_cons, List.sum_nil, h0, hN]
    have e2 : 2*(d + 1) + 1 - (d + 1) = d + 2 := by omega
    rw [e2]
    ring

/-- The length of an interval filter over `base_vector`-style lists. -/
theorem length_filter_interval (d : ℕ) (lo hi : ℤ) :
    ∀ n : ℕ, (((List.range n).map (fun i : ℕ => (i : ℤ) - (d : ℤ))).filter
        (fun x => decide (lo ≤ x ∧ x ≤ hi))).length =
      (min ((n : ℤ) - 1 - d) hi + 1 - max (-(d : ℤ)) lo).toNat := by
  intro n
  induction n with
  | zero =>
    simp only [List.range_zero, List.map_nil, List.filter_nil, List.length_nil]
    omega
  | succ n ih =>
    rw [List.range_succ, List.map_append, List.filter_append, List.length_append, ih]
    simp only [List.map_cons, List.map_nil]
    by_cases h : lo ≤ (n : ℤ) - d ∧ (n : ℤ) - d ≤ hi
    · rw [List.filter_cons, if_pos (by simpa using h)]
      simp only [List.filter_nil, List.length_cons, List.length_nil]
      push_cast
      omega
    · rw [List.filter_cons, if_neg (by simpa using h)]
      simp only [List.filter_nil, List.length_nil]
      push_cast
      omega

/-- Claim C9: for every ring radius `d`, the coordinate enumeration around the
origin produces exactly `3d² + 3d + 1` pairwise-distinct axial coordinates,
and the hexagon grid built from it has exactly that many tiles (for any
per-tile nutrient assignment, which the tile count does not depend on). -/
theorem C9_ring_cardinality (d : ℕ) :
    (neighbor_coordinates_with_distance (0, 0) d).length = 3*d*d + 3*d + 1 ∧
    (neighbor_coordinates_with_distance (0, 0) d).Nodup ∧
    ∀ nutrient : Coord → ℚ,
      (create_hexagon_ring d nutrient).length = 3*d*d + 3*d + 1 := by
  have hlen : (neighbor_coordinates_with_distance (0, 0) d).length =
      3*d*d + 3*d + 1 := by
    rw [neighbor_coordinates_eval, List.length_flatMap]
    have hbv : base_vector d = (List.range (2*d + 1)).map (fun i : ℕ => (i : ℤ) - (d : ℤ)) := rfl
    rw [show (List.map (List.length ∘ fun r =>
        ((base_vector d).filter fun q =>
          decide (-(d : ℤ) - r ≤ q ∧ q ≤ (d : ℤ) - r)).map fun q => (r, q))
        (base_vector d)).sum =
      (List.map (List.length ∘ fun r =>
        ((base_vector d).filter fun q =>
          decide (-(d : ℤ) - r ≤ q ∧ q ≤ (d : ℤ) - r)).map fun q => (r, q))
        ((List.range (2*d + 1)).map (fun i : ℕ => (i : ℤ) - (d : ℤ)))).sum
      from congrArg (fun l => (List.map (List.length ∘ fun r =>
        ((base_vector d).filter fun q =>
          decide (-(d : ℤ) - r ≤ q ∧ q ≤ (d : ℤ) - r)).map fun q => (r, q)) l).sum) hbv]
    rw [List.map_map]
    have hpt : ∀ i ∈ List.range (2*d + 1),
        ((List.length ∘ fun r =>
          ((base_vector d).filter fun q =>
            decide (-(d : ℤ) - r ≤ q ∧ q ≤ (d : ℤ) - r)).map fun q => (r, q)) ∘
          fun i : ℕ => (i : ℤ) - (d : ℤ)) i = 2*d + 1 - Nat.dist i d := by
      intro i hi
      rw [List.mem_range] at hi
      simp only [Function.comp, List.length_map]
      rw [hbv, length_filter_interval d (-(d : ℤ) - ((i : ℤ) - d)) ((d : ℤ) - ((i : ℤ) - d))
        (2*d + 1)]
      simp only [Nat.dist]
      push_cast
      omega
    rw [List.map_congr_left hpt, sum_tent_profile]
  have hnd : (neighbor_coordinates_with_distance (0, 0) d).Nodup := by
    rw [neighbor_coordinates_eval, List.nodup_flatMap]
    constructor
    · intro r _
      refine List.Nodup.map_on ?_ ((nodup_base_vector d).filter _)
      intro q1 _ q2 _ h
      exact (Prod.ext_iff.mp h).2
    · have hinj : ∀ r1 r2 : ℤ, r1 ≠ r2 → List.Disjoint
          (((base_vector d).filter fun q =>
            decide (-(d : ℤ) - r1 ≤ q ∧ q ≤ (d : ℤ) - r1)).map fun q => (r1, q))
          (((base_vector d).filter fun q =>
            decide (-(d : ℤ) - r2 ≤ q ∧ q ≤ (d : ℤ) - r2)).map fun q => (r2, q)) := by
        intro r1 r2 hne x hx1 hx2
        rw [List.mem_map] at hx1 hx2
        obtain ⟨q1, _, hq1⟩ := hx1
        obtain ⟨q2, _, hq2⟩ := hx2
        apply hne
        rw [← hq2] at hq1
        exact (Prod.ext_iff.mp hq1).1
      refine List.Pairwise.imp_of_mem ?_
        ((nodup_base_vector d).imp (fun h => h) : List.Pairwise (· ≠ ·) (base_vector d))
      intro r1 r2 _ _ hne
      exact hinj r1 r2 hne
  refine ⟨hlen, hnd, ?_⟩
  intro nutrient
  have hfold : create_hexagon_ring d nutrient =
      (neighbor_coordinates_with_distance (0, 0) d).map (fun c => (c, nutrient c)) := by
    unfold create_hexagon_ring
    rw [← List.foldl_map (fun c => (c, nutrient c))
      (fun grid p => dictInsert p.1 p.2 grid)]
    rw [foldl_dictInsert_of_nodup _ [] ?_]
    · rw [List.nil_append]
    · rw [keysOf_nil, List.nil_append]
      have hk : keysOf ((neighbor_coordinates_with_distance (0, 0) d).map
          (fun c => (c, nutrient c))) = neighbor_coordinates_with_distance (0, 0) d := by
        simp only [keysOf, List.map_map]
        have hcomp : (Prod.fst ∘ fun c : Coord => (c, nutrient c)) = id := rfl
        rw [hcomp, List.map_id]
      rw [hk]
      exact hnd
  rw [hfold, List.length_map, hlen]

theorem getD_append_length {α : Type} (l : List α) (x d : α) :
    (l ++ [x]).getD l.length d = x := by
  rw [List.getD_eq_getElem]
  exact List.getElem_concat_length l x _ rfl (by simp)

theorem getD_append_of_length {α : Type} {m : ℕ} (l : List α) (x d : α)
    (h : m = l.length) : (l ++ [x]).getD m d = x := by
  subst h
  exact getD_append_length l x d

theorem log_ten_lt_five : Real.log 10 < 5 := by
  rw [Real.log_lt_iff_lt_exp (by norm_num : (0:ℝ) < 10)]
  have h1 : Real.exp 5 = Real.exp 2.5 * Real.exp 2.5 := by
    rw [← Real.exp_add]
    norm_num
  have h2 : (3.5 : ℝ) ≤ Real.exp 2.5 := by
    have := Real.add_one_le_exp (2.5 : ℝ)
    linarith
  nlinarith [Real.exp_pos (2.5 : ℝ)]

/-- The growth-rate value `ProcessTracker.update` appends is exactly the
(amended-)spec window formula evaluated on the series including the new
sample. -/
theorem update_growth_rate_eval (t : ProcessTracker) (ct cb cs : ℝ)
    (hok : t.lengths_ok) :
    (t.update ct cb cs).growth_rate =
      t.growth_rate ++
        [growth_rate_spec (t.timestamps ++ [ct]) (t.total_biomass ++ [cb])] := by
  obtain ⟨hts, _, _⟩ := hok
  simp only [ProcessTracker.update, growth_rate_spec]
  refine congrArg (fun v => t.growth_rate ++ [v]) ?_
  simp only [List.length_append, List.length_singleton, Nat.add_sub_cancel]
  rw [getD_append_length]
  rw [getD_append_of_length _ _ _ hts.symm]
  by_cases h2 : 2 ≤ t.total_biomass.length + 1
  · rw [if_pos h2]
    have hws : 2 ≤ min 5 (t.total_biomass.length + 1) := by omega
    rw [if_pos hws]
    by_cases hc : 0 < ct - (t.timestamps ++ [ct]).getD
        (t.total_biomass.length + 1 - min 5 (t.total_biomass.length + 1)) 0 ∧
        0 < (t.total_biomass ++ [cb]).getD
          (t.total_biomass.length + 1 - min 5 (t.total_biomass.length + 1)) 0 ∧
        0 < cb
    · rw [if_pos hc, if_pos ⟨h2, hc⟩]
    · rw [if_neg hc, if_neg ?_]
      intro hcon
      exact hc ⟨hcon.2.1, hcon.2.2⟩
  · rw [if_neg h2, if_neg ?_]
    intro hcon
    exact h2 hcon.1

/-- Claim C10: the four tracked series have equal lengths after construction
(and `reset`), after `initialize_with_initial_state`, and after every
`update`, each `update` appending exactly one element to each series (exactly
one growth-rate value per sample, on every control path). -/
theorem C10_tracker_series_aligned :
    ProcessTracker.empty.lengths_ok ∧
    (∀ b s : ℝ, (ProcessTracker.initialize_with_initial_state b s).lengths_ok) ∧
    (∀ (t : ProcessTracker) (ct cb cs : ℝ), t.lengths_ok →
      (t.update ct cb cs).lengths_ok ∧
      (t.update ct cb cs).timestamps.length = t.timestamps.length + 1 ∧
      (t.update ct cb cs).total_biomass.length = t.total_biomass.length + 1 ∧
      (t.update ct cb cs).growth_rate.length = t.growth_rate.length + 1 ∧
      (t.update ct cb cs).total_substrate.length = t.total_substrate.length + 1) := by
  refine ⟨⟨rfl, rfl, rfl⟩, fun b s => ⟨rfl, rfl, rfl⟩, ?_⟩
  intro t ct cb cs hok
  obtain ⟨hts, hgr, hss⟩ := hok
  simp only [ProcessTracker.update, ProcessTracker.lengths_ok, List.length_append,
    List.length_cons, List.length_nil]
  refine ⟨⟨by omega, by omega, by omega⟩, ?_, ?_, ?_, ?_⟩ <;> trivial

/-- Witness for claim C10 at the empty tracker. -/
theorem C10_tracker_series_aligned_witness :
    ProcessTracker.empty.lengths_ok ∧
    ((ProcessTracker.empty.update 1 2 3).lengths_ok ∧
      (ProcessTracker.empty.update 1 2 3).timestamps.length =
        ProcessTracker.empty.timestamps.length + 1 ∧
      (ProcessTracker.empty.update 1 2 3).total_biomass.length =
        ProcessTracker.empty.total_biomass.length + 1 ∧
      (ProcessTracker.empty.update 1 2 3).growth_rate.length =
        ProcessTracker.empty.growth_rate.length + 1 ∧
      (ProcessTracker.empty.update 1 2 3).total_substrate.length =
        ProcessTracker.empty.total_substrate.length + 1) :=
  ⟨⟨rfl, rfl, rfl⟩,
    C10_tracker_series_aligned.2.2 ProcessTracker.empty 1 2 3 ⟨rfl, rfl, rfl⟩⟩

/-- Claim C3 (counterexample): after samples `biomass = [1, 100]` at
`timestamps = [0, 1]`, the appended growth-rate value is `log 10` — the code
clamps the biomass ratio into `[0.1, 10]` before taking the log — whereas the
formula claimed by the spec, `ln(biomass[n]/biomass[start]) / Δt` clamped to
`[-5, 5]`, gives `min (log 100) 5 ≠ log 10`. -/
theorem C3_growth_rate_counterexample :
    ((ProcessTracker.initialize_with_initial_state 1 1).update 1 100 1).growth_rate.getD 1 0 =
      Real.log 10 ∧
    Real.log 10 ≠ max (-5) (min (Real.log ((100 : ℝ) / 1) / (1 - 0)) 5) := by
  have hlog10 : Real.log 10 < 5 := log_ten_lt_five
  have hlog10nn : (0 : ℝ) ≤ Real.log 10 := Real.log_nonneg (by norm_num)
  constructor
  · have hok : (ProcessTracker.initialize_with_initial_state 1 1).lengths_ok :=
      ⟨rfl, rfl, rfl⟩
    rw [update_growth_rate_eval _ _ _ _ hok]
    have hspec : growth_rate_spec
        ((ProcessTracker.initialize_with_initial_state (1 : ℝ) 1).timestamps ++ [1])
        ((ProcessTracker.initialize_with_initial_state (1 : ℝ) 1).total_biomass ++ [100]) =
        Real.log 10 := by
      simp only [ProcessTracker.initialize_with_initial_state]
      simp only [List.cons_append, List.nil_append]
      simp only [growth_rate_spec, List.length_cons, List.length_nil,
        List.getD_cons_zero, List.getD_cons_succ]
      norm_num
      rw [min_eq_left hlog10.le, max_eq_right (le_trans (by norm_num) hlog10nn)]
    rw [hspec]
    simp only [ProcessTracker.initialize_with_initial_state, List.cons_append,
      List.nil_append, List.getD_cons_succ, List.getD_cons_zero]
  · have hmono : Real.log 10 < Real.log 100 := by
      refine Real.log_lt_log (by norm_num) (by norm_num)
    intro h
    rw [show ((100 : ℝ) / 1) = 100 by norm_num, show ((1 : ℝ) - 0) = 1 by norm_num,
      div_one] at h
    rcases le_or_lt (Real.log 100) 5 with h5 | h5
    · rw [min_eq_left h5, max_eq_right (by linarith)] at h
      exact absurd h (ne_of_lt hmono)
    · rw [min_eq_right h5.le, max_eq_right (by norm_num)] at h
      exact absurd h (ne_of_lt hlog10)

/-- Claim C3 (amended): the growth-rate value appended by every update (once
the series are aligned) equals the windowed log-ratio formula with the
biomass ratio floored by `epsilon = 1e-10` and clamped into `[0.1, 10]`
before the log, then clamped into `[-5, 5]` (zero on a non-positive time
delta or non-positive biomass endpoint) — the spec's formula without the
ratio clamping does not hold in general; and for the synthetic samples
`biomass = [1, 2]` at `timestamps = [0, 1]`, the appended value is
`ln(2/1)/(1-0) = log 2 ≈ 0.693`, inside `[-5, 5]`. -/
theorem C3_growth_rate_estimator_amended :
    (∀ (t : ProcessTracker) (ct cb cs : ℝ), t.lengths_ok →
      (t.update ct cb cs).growth_rate =
        t.growth_rate ++
          [growth_rate_spec (t.timestamps ++ [ct]) (t.total_biomass ++ [cb])]) ∧
    ((ProcessTracker.initialize_with_initial_state 1 1).update 1 2 1).growth_rate.getD 1 0 =
      Real.log ((2 : ℝ) / 1) / (1 - 0) ∧
    -5 ≤ Real.log ((2 : ℝ) / 1) / (1 - 0) ∧ Real.log ((2 : ℝ) / 1) / (1 - 0) ≤ 5 := by
  have hlog2 : Real.log 2 ≤ 1 := le_trans (Real.log_le_sub_one_of_pos (by norm_num)) (by norm_num)
  have hlog2nn : (0 : ℝ) ≤ Real.log 2 := Real.log_nonneg (by norm_num)
  refine ⟨update_growth_rate_eval, ?_, ?_, ?_⟩
  · have hok : (ProcessTracker.initialize_with_initial_state 1 1).lengths_ok :=
      ⟨rfl, rfl, rfl⟩
    rw [update_growth_rate_eval _ _ _ _ hok]
    have hspec : growth_rate_spec
        ((ProcessTracker.initialize_with_initial_state (1 : ℝ) 1).timestamps ++ [1])
        ((ProcessTracker.initialize_with_initial_state (1 : ℝ) 1).total_biomass ++ [2]) =
        Real.log 2 := by
      simp only [ProcessTracker.initialize_with_initial_state]
      simp only [List.cons_append, List.nil_append]
      simp only [growth_rate_spec, List.length_cons, List.length_nil,
        List.getD_cons_zero, List.getD_cons_succ]
      norm_num
      rw [min_eq_left (le_trans hlog2 (by norm_num)),
        max_eq_right (le_trans (by norm_num) hlog2nn)]
    rw [hspec]
    simp only [ProcessTracker.initialize_with_initial_state, List.cons_append,
      List.nil_append, List.getD_cons_succ, List.getD_cons_zero]
    norm_num
  · norm_num
    linarith
  · norm_num
    linarith

/-- Witness for the amended claim C3: the refinement applied to the empty
tracker. -/
theorem C3_growth_rate_estimator_amended_witness :
    ProcessTracker.empty.lengths_ok ∧
    (ProcessTracker.empty.update 1 2 3).growth_rate =
      ProcessTracker.empty.growth_rate ++
        [growth_rate_spec (ProcessTracker.empty.timestamps ++ [1])
          (ProcessTracker.empty.total_biomass ++ [2])] :=
  ⟨⟨rfl, rfl, rfl⟩,
    C3_growth_rate_estimator_amended.1 ProcessTracker.empty 1 2 3 ⟨rfl, rfl, rfl⟩⟩

/-- Claim C4 (code behavior at the failing input): nothing in round setup
validates the configuration.  With `cell_energy_affinity = -1` and
`cell_division_threshold = 0`, `Cell.__init__` accepts and stores the invalid
values with `growth = true`, and `_create_cells` builds the round's cell line
with them — no configuration error is raised anywhere on this path (the
embedded setup is total because the source has no validation), contradicting
the spec's fail-fast requirement. -/
theorem C4_no_config_validation :
    (Cell.init ⟨1, 0, 0, 1/40, -1, 1/2, 1/5⟩ 0).energy_affinity = -1 ∧
    (Cell.init ⟨1, 0, 0, 1/40, -1, 1/2, 1/5⟩ 0).division_threshold = 0 ∧
    (Cell.init ⟨1, 0, 0, 1/40, -1, 1/2, 1/5⟩ 0).growth = true ∧
    (create_cells ⟨1, 0, 0, 1/40, -1, 1/2, 1/5⟩ [((0, 0), 1)] [0] (fun _ => 0)).length = 1 ∧
    keysOf (create_cells ⟨1, 0, 0, 1/40, -1, 1/2, 1/5⟩ [((0, 0), 1)] [0] (fun _ => 0)) =
      [(0, 0)] :=
  ⟨rfl, rfl, rfl, rfl, rfl⟩

section LoopLemmas

variable {β : Type}

theorem lookupKey_setKey_none_iff {k X : Coord} (f : β → β) (l : List (Coord × β)) :
    lookupKey k (setKey X f l) = none ↔ lookupKey k l = none := by
  by_cases h : k = X
  · subst h
    rw [lookupKey_setKey_self]
    cases lookupKey k l <;> simp
  · rw [lookupKey_setKey_ne h]

theorem setKey_append (k : Coord) (f : β → β) (l₁ l₂ : List (Coord × β)) :
    setKey k f (l₁ ++ l₂) = setKey k f l₁ ++ setKey k f l₂ := by
  simp [setKey]

theorem setKey_singleton_ne {k d : Coord} (h : d ≠ k) (f : β → β) (x : β) :
    setKey k f [(d, x)] = [(d, x)] := by
  simp [setKey, h]

theorem setKey_setKey (k : Coord) (f g : β → β) (l : List (Coord × β)) :
    setKey k g (setKey k f l) = setKey k (g ∘ f) l := by
  induction l with
  | nil => rfl
  | cons p t ih =>
    rw [setKey_cons, setKey_cons, setKey_cons]
    by_cases h : p.1 = k
    · rw [if_pos h]
      simp only [if_pos h, ih]
      rfl
    · rw [if_neg h]
      simp only [if_neg h, ih]

theorem lookupKey_append_eq_none_iff (k : Coord) (l₁ l₂ : List (Coord × β)) :
    lookupKey k (l₁ ++ l₂) = none ↔
      lookupKey k l₁ = none ∧ lookupKey k l₂ = none := by
  rw [lookupKey_append]
  cases h : lookupKey k l₁ <;> simp [h]

/-- `free_tile_count` only depends on the grid keys and on which coordinates
the cell dictionary binds, so in-place value updates do not change it. -/
theorem free_tile_count_setKey (Xg Xc : Coord) (g : ℚ → ℚ) (f : Cell → Cell)
    (hexagons : List (Coord × ℚ)) (cells : List (Coord × Cell)) :
    free_tile_count ⟨setKey Xg g hexagons, setKey Xc f cells⟩ =
      free_tile_count ⟨hexagons, cells⟩ := by
  unfold free_tile_count
  rw [keysOf_setKey]
  refine congrArg List.length (List.filter_congr ?_)
  intro c _
  have h := lookupKey_setKey_none_iff (k := c) (X := Xc) f cells
  by_cases hc : lookupKey c cells = none
  · rw [h.mpr hc, hc]
  · have h1 : lookupKey c (setKey Xc f cells) ≠ none := fun hn => hc (h.mp hn)
    rcases Option.ne_none_iff_exists'.mp h1 with ⟨v, hv⟩
    rcases Option.ne_none_iff_exists'.mp hc with ⟨w, hw⟩
    rw [hv, hw]
    rfl

/-- Removing one matching element from the filtered list strictly shrinks it:
occupying a previously free tile decreases the free count. -/
theorem length_filter_and_lt (p : Coord → Bool) (d : Coord) :
    ∀ l : List Coord, l.Nodup → d ∈ l → p d = true →
      (l.filter (fun c => p c && !(c = d : Bool))).length <
        (l.filter p).length := by
  have hle : ∀ u : List Coord,
      (u.filter (fun c => p c && !(c = d : Bool))).length ≤ (u.filter p).length := by
    intro u
    induction u with
    | nil => simp
    | cons b v ihv =>
      rw [List.filter_cons, List.filter_cons]
      by_cases hb : p b = true
      · by_cases hbd : b = d
        · rw [if_pos hb, if_neg (by simp [hbd])]
          simp only [List.length_cons]
          omega
        · rw [if_pos (by simp [hb, hbd]), if_pos hb]
          simp only [List.length_cons]
          omega
      · rw [if_neg (by simp [hb]), if_neg (by simp [hb])]
        exact ihv
  intro l
  induction l with
  | nil => intro _ h; cases h
  | cons a t ih =>
    intro hnd hmem hpd
    rw [List.nodup_cons] at hnd
    rw [List.filter_cons, List.filter_cons]
    rcases List.mem_cons.mp hmem with heq | hmemt
    · subst heq
      rw [if_pos hpd, if_neg (by simp)]
      have := hle t
      simp only [List.length_cons]
      omega
    · have hane : a ≠ d := fun h => hnd.1 (h ▸ hmemt)
      by_cases hpa : p a = true
      · rw [if_pos (by simp [hpa, hane]), if_pos hpa]
        simp only [List.length_cons]
        exact Nat.succ_lt_succ (ih hnd.2 hmemt hpd)
      · rw [if_neg (by simp [hpa]), if_neg (by simp [hpa])]
        exact ih hnd.2 hmemt hpd

theorem setKey_of_not_mem {k : Coord} {l : List (Coord × β)} (f : β → β)
    (h : k ∉ keysOf l) : setKey k f l = l := by
  induction l with
  | nil => rfl
  | cons p t ih =>
    rw [keysOf_cons] at h
    have h1 : ¬p.1 = k := by
      intro hp
      rw [hp] at h
      exact h (List.mem_cons_self _ _)
    have h2 : k ∉ keysOf t := fun ht => h (List.mem_cons_of_mem _ ht)
    rw [setKey_cons, if_neg h1, ih h2]

theorem potential_sum_cons (game_state : GameState) (hexagons : List (Coord × ℚ))
    (p : Coord × Cell) (t : List (Coord × Cell)) :
    potential_sum game_state ⟨hexagons, p :: t⟩ =
      cell_potential game_state p.2 ((lookupKey p.1 hexagons).getD 0) +
        potential_sum game_state ⟨hexagons, t⟩ := by
  simp [potential_sum]

theorem potential_sum_grid_congr (game_state : GameState)
    {hexagons hexagons' : List (Coord × ℚ)} {cells : List (Coord × Cell)}
    (h : ∀ q ∈ cells, lookupKey q.1 hexagons' = lookupKey q.1 hexagons) :
    potential_sum game_state ⟨hexagons', cells⟩ =
      potential_sum game_state ⟨hexagons, cells⟩ := by
  unfold potential_sum
  refine congrArg List.sum (List.map_congr_left ?_)
  intro q hq
  rw [h q hq]

/-- Exchange law for the potential sum under an in-place update of the cell
at `X` (and any grid change localized to `X`). -/
theorem potential_sum_setKey (game_state : GameState) {X : Coord} {c : Cell}
    (f : Cell → Cell) (hexagons hexagons' : List (Coord × ℚ)) :
    ∀ cells : List (Coord × Cell), (keysOf cells).Nodup →
      lookupKey X cells = some c →
      (∀ k : Coord, k ≠ X → lookupKey k hexagons' = lookupKey k hexagons) →
      potential_sum game_state ⟨hexagons', setKey X f cells⟩ +
        cell_potential game_state c ((lookupKey X hexagons).getD 0) =
      potential_sum game_state ⟨hexagons, cells⟩ +
        cell_potential game_state (f c) ((lookupKey X hexagons').getD 0) := by
  intro cells
  induction cells with
  | nil => intro _ hc; cases hc
  | cons p t ih =>
    intro hnd hc hgrid
    rw [keysOf_cons, List.nodup_cons] at hnd
    rw [lookupKey_cons] at hc
    rw [setKey_cons]
    by_cases hp : p.1 = X
    · rw [if_pos hp] at hc ⊢
      have hcp : p.2 = c := by
        injection hc
      subst hcp
      have hXt : X ∉ keysOf t := by
        rw [← hp]
        exact hnd.1
      rw [setKey_of_not_mem f hXt]
      rw [potential_sum_cons, potential_sum_cons]
      have htail : potential_sum game_state ⟨hexagons', t⟩ =
          potential_sum game_state ⟨hexagons, t⟩ := by
        refine potential_sum_grid_congr game_state ?_
        intro q hq
        refine hgrid q.1 (fun hqX => hXt ?_)
        rw [← hqX]
        exact List.mem_map.mpr ⟨q, hq, rfl⟩
      rw [htail]
      simp only [hp]
      omega
    · rw [if_neg hp] at hc ⊢
      rw [potential_sum_cons, potential_sum_cons]
      have hhead : lookupKey p.1 hexagons' = lookupKey p.1 hexagons :=
        hgrid p.1 hp
      rw [hhead]
      have := ih hnd.2 hc hgrid
      omega

theorem uptake_floor_pos (cell : Cell) (haff : 0 < cell.energy_affinity)
    (hecm : 0 < cell.energy_consumption_rate_maximum) : 0 < uptake_floor cell := by
  unfold uptake_floor
  exact div_pos (mul_pos hecm (by norm_num)) (by linarith)

theorem monod_ge_uptake_floor (cell : Cell) (n : ℚ) (hn : 1/200 ≤ n)
    (haff : 0 < cell.energy_affinity)
    (hecm : 0 < cell.energy_consumption_rate_maximum) :
    uptake_floor cell ≤
      cell.energy_consumption_rate_maximum * n / (n + cell.energy_affinity) := by
  unfold uptake_floor
  rw [div_le_div_iff (by linarith) (by linarith)]
  nlinarith [mul_nonneg (mul_pos hecm haff).le
    (by linarith : (0 : ℚ) ≤ n - 1/200)]

theorem cell_potential_pos (game_state : GameState) (cell : Cell) (n : ℚ)
    (hg : cell.growth = true) : 1 ≤ cell_potential game_state cell n := by
  unfold cell_potential
  rw [if_pos hg]
  by_cases h : cell.energy_value < game_state.cell_division_threshold
  · rw [if_pos h]
    omega
  · rw [if_neg h]
    omega

/-- Core absorption step of the termination argument: a growing, not yet
division-ready cell on a positive-nutrient tile strictly loses potential on
every simulator update. -/
theorem cell_potential_absorb_lt (game_state : GameState) (cell : Cell) (n : ℚ)
    (hg : cell.growth = true) (hn : 0 < n)
    (hthr : cell.division_threshold = game_state.cell_division_threshold)
    (haff : 0 < cell.energy_affinity)
    (hecm : 0 < cell.energy_consumption_rate_maximum)
    (he : cell.energy_value < game_state.cell_division_threshold) :
    cell_potential game_state
      { cell with
        energy_value := (update_nutrient_value n cell.energy_value cell.growth
          cell.energy_consumption_rate_maximum cell.energy_affinity
          cell.division_threshold).2.1
        growth := (update_nutrient_value n cell.energy_value cell.growth
          cell.energy_consumption_rate_maximum cell.energy_affinity
          cell.division_threshold).2.2 }
      (update_nutrient_value n cell.energy_value cell.growth
        cell.energy_consumption_rate_maximum cell.energy_affinity
        cell.division_threshold).1 <
      cell_potential game_state cell n := by
  rw [hg, update_nutrient_value_growth _ _ _ _ _ hn]
  set e := cell.energy_value with he_def
  set ecm := cell.energy_consumption_rate_maximum with hecm_def
  set aff := cell.energy_affinity with haff_def
  set thr := cell.division_threshold with hthr_def
  set u := uptake n e ecm aff thr with hu_def
  have hun : u ≤ n := uptake_le_nutrient n e ecm aff thr
  have hδ : 0 < uptake_floor cell := uptake_floor_pos cell haff hecm
  have hδ' : uptake_floor { cell with
      energy_value := e + u, growth := true } = uptake_floor cell := rfl
  by_cases hsnap : |n - u| < 1/200
  · rw [if_pos hsnap]
    have hpos := cell_potential_pos game_state cell n hg
    have hzero : cell_potential game_state
        { cell with energy_value := e + u, growth := false } 0 = 0 := by
      unfold cell_potential
      rw [if_neg (by simp)]
    rw [hzero] at *
    omega
  · rw [if_neg hsnap]
    have hge : 1/200 ≤ |n - u| := le_of_not_lt hsnap
    have hn0 : 0 ≤ n - u := by linarith
    have hn' : 1/200 ≤ n - u := by rwa [abs_of_nonneg hn0] at hge
    have hpot_old : cell_potential game_state cell n =
        (⌈n / uptake_floor cell⌉).toNat + 2 := by
      unfold cell_potential
      rw [if_pos hg, if_pos he]
    by_cases hA : thr - e ≤ min (ecm * n / (n + aff)) n
    · have hu : u = thr - e := by
        rw [hu_def]
        unfold uptake
        exact min_eq_right hA
      have hflag' : ¬(e + u < game_state.cell_division_threshold) := by
        have hcalc : e + u = game_state.cell_division_threshold := by
          rw [hu, ← hthr]
          ring
        rw [hcalc]
        exact lt_irrefl _
      have hpot_new : cell_potential game_state
          { cell with energy_value := e + u, growth := true } (n - u) =
          (⌈(n - u) / uptake_floor cell⌉).toNat + 1 := by
        unfold cell_potential
        rw [if_pos rfl, hδ']
        rw [if_neg hflag']
      rw [hpot_new, hpot_old]
      have hceil : ⌈(n - u) / uptake_floor cell⌉ ≤ ⌈n / uptake_floor cell⌉ :=
        Int.ceil_le_ceil ((div_le_div_right hδ).mpr (by linarith))
      omega
    · have hAlt : min (ecm * n / (n + aff)) n < thr - e := lt_of_not_le hA
      have hu : u = min (ecm * n / (n + aff)) n := by
        rw [hu_def]
        unfold uptake
        exact min_eq_left hAlt.le
      by_cases hB : n ≤ ecm * n / (n + aff)
      · have hun' : u = n := by rw [hu, min_eq_right hB]
        rw [hun'] at hn'
        norm_num at hn'
      · have humonod : u = ecm * n / (n + aff) := by
          rw [hu, min_eq_left (le_of_not_le hB)]
        have hupos : 0 < u := by
          rw [humonod]
          exact div_pos (mul_pos hecm hn) (by linarith)
        have hnfloor : 1/200 ≤ n := by linarith
        have hmf : uptake_floor cell ≤ ecm * n / (n + aff) :=
          monod_ge_uptake_floor cell n hnfloor haff hecm
        have h1u : 1 ≤ u / uptake_floor cell := by
          rw [one_le_div hδ, humonod]
          exact hmf
        have hdiv : (n - u) / uptake_floor cell ≤ n / uptake_floor cell - 1 := by
          have hexp : (n - u) / uptake_floor cell =
              n / uptake_floor cell - u / uptake_floor cell := by
            field_simp
          rw [hexp]
          linarith
        have hceil : ⌈(n - u) / uptake_floor cell⌉ ≤ ⌈n / uptake_floor cell⌉ - 1 := by
          calc ⌈(n - u) / uptake_floor cell⌉ ≤ ⌈n / uptake_floor cell - 1⌉ :=
              Int.ceil_le_ceil hdiv
            _ = ⌈n / uptake_floor cell⌉ - 1 := Int.ceil_sub_one _
        have hpos : 1 ≤ ⌈n / uptake_floor cell⌉ :=
          Int.ceil_pos.mpr (div_pos (by linarith) hδ)
        have hflag' : e + u < game_state.cell_division_threshold := by
          have : u < thr - e := by
            rw [hu]
            exact hAlt
          rw [← hthr, hthr_def]
          linarith
        have hpot_new : cell_potential game_state
            { cell with energy_value := e + u, growth := true } (n - u) =
            (⌈(n - u) / uptake_floor cell⌉).toNat + 2 := by
          unfold cell_potential
          rw [if_pos rfl, hδ']
          rw [if_pos hflag']
        rw [hpot_new, hpot_old]
        omega

theorem lookupKey_setKey_isSome (k X : Coord) (f : β → β) (l : List (Coord × β)) :
    (lookupKey k (setKey X f l)).isSome = (lookupKey k l).isSome := by
  by_cases h : k = X
  · subst h
    rw [lookupKey_setKey_self]
    cases lookupKey k l <;> rfl
  · rw [lookupKey_setKey_ne h]

theorem setKey_eq_const {X : Coord} {c : β} (f : β → β) :
    ∀ l : List (Coord × β), (keysOf l).Nodup → lookupKey X l = some c →
      setKey X f l = setKey X (fun _ => f c) l := by
  intro l
  induction l with
  | nil => intro _ _; rfl
  | cons p t ih =>
    intro hnd hc
    rw [keysOf_cons, List.nodup_cons] at hnd
    rw [lookupKey_cons] at hc
    rw [setKey_cons, setKey_cons]
    by_cases hp : p.1 = X
    · rw [if_pos hp] at hc ⊢
      rw [if_pos hp]
      have hXt : X ∉ keysOf t := by
        rw [← hp]
        exact hnd.1
      rw [setKey_of_not_mem f hXt, setKey_of_not_mem (fun _ => f c) hXt]
      injection hc with hc
      rw [hc]
    · rw [if_neg hp] at hc ⊢
      rw [if_neg hp, ih hnd.2 hc]

theorem setKey_same {X : Coord} {v : β} :
    ∀ l : List (Coord × β), (keysOf l).Nodup → lookupKey X l = some v →
      setKey X (fun _ => v) l = l := by
  intro l
  induction l with
  | nil => intro _ _; rfl
  | cons p t ih =>
    intro hnd hc
    rw [keysOf_cons, List.nodup_cons] at hnd
    rw [lookupKey_cons] at hc
    rw [setKey_cons]
    by_cases hp : p.1 = X
    · rw [if_pos hp] at hc ⊢
      have hXt : X ∉ keysOf t := by
        rw [← hp]
        exact hnd.1
      rw [setKey_of_not_mem (fun _ => v) hXt]
      injection hc with hc
      rw [← hc]
    · rw [if_neg hp] at hc ⊢
      rw [ih hnd.2 hc]

/-- Updating one occupied tile and its cell preserves the loop invariant,
provided the new cell keeps its kinetic parameters, respects the threshold
bound, and only keeps growing on a positive tile. -/
theorem LoopInv_update (game_state : GameState) {hexagons : List (Coord × ℚ)}
    {cells : List (Coord × Cell)} {X : Coord} {c : Cell} {n' : ℚ}
    (newcell : Cell)
    (hinv : LoopInv game_state ⟨hexagons, cells⟩)
    (hc : lookupKey X cells = some c)
    (hthr : newcell.division_threshold = c.division_threshold)
    (haff : newcell.energy_affinity = c.energy_affinity)
    (hecm : newcell.energy_consumption_rate_maximum = c.energy_consumption_rate_maximum)
    (henergy : newcell.energy_value ≤ game_state.cell_division_threshold)
    (hgrow : newcell.growth = true → 0 < n') :
    LoopInv game_state
      ⟨setKey X (fun _ => n') hexagons, setKey X (fun _ => newcell) cells⟩ := by
  obtain ⟨h1, h2, h3, h4, h5, h6, h7, h8, h9⟩ := hinv
  have hcmem : (X, c) ∈ cells := lookupKey_mem hc
  have hc7 := h7 (X, c) hcmem
  refine ⟨?_, ?_, ?_, h4, h5, h6, ?_, ?_, ?_⟩
  · rw [keysOf_setKey]
    exact h1
  · rw [keysOf_setKey]
    exact h2
  · intro p hp
    simp only []
    rw [lookupKey_setKey_isSome]
    obtain ⟨q, hq, hql⟩ := List.mem_map.mp hp
    have := h3 q hq
    by_cases hqX : q.1 = X
    · rw [← hql, if_pos hqX]
      simpa [hqX] using this
    · rw [← hql, if_neg hqX]
      exact this
  · intro p hp
    obtain ⟨q, hq, hql⟩ := List.mem_map.mp hp
    by_cases hqX : q.1 = X
    · rw [← hql, if_pos hqX]
      refine ⟨?_, ?_, ?_, henergy⟩
      · rw [hthr]
        exact hc7.1
      · rw [haff]
        exact hc7.2.1
      · rw [hecm]
        exact hc7.2.2.1
    · rw [← hql, if_neg hqX]
      exact h7 q hq
  · intro q hq hnone
    obtain ⟨w, hw, hwe⟩ := List.mem_map.mp hq
    by_cases hwX : w.1 = X
    · exfalso
      rw [← hwe] at hnone
      rw [if_pos hwX] at hnone
      simp only [] at hnone
      rw [hwX] at hnone
      rw [(lookupKey_setKey_none_iff _ _).mp hnone] at hc
      cases hc
    · rw [← hwe, if_neg hwX] at hnone ⊢
      simp only [] at hnone ⊢
      exact h8 w hw ((lookupKey_setKey_none_iff _ _).mp hnone)
  · intro p hp hpg
    obtain ⟨q, hq, hql⟩ := List.mem_map.mp hp
    by_cases hqX : q.1 = X
    · rw [← hql, if_pos hqX] at hpg ⊢
      simp only [] at hpg ⊢
      rw [hqX, lookupKey_setKey_self]
      have hsome := h3 (X, c) hcmem
      rcases Option.isSome_iff_exists.mp hsome with ⟨nv, hnv⟩
      simp only [] at hnv
      rw [hnv]
      simp only [Option.map_some', Option.getD_some]
      exact hgrow hpg
    · rw [← hql, if_neg hqX] at hpg ⊢
      simp only [] at hpg ⊢
      rw [lookupKey_setKey_ne hqX]
      exact h9 q hq hpg

/-- Installing a daughter cell on a previously free grid tile preserves the
loop invariant. -/
theorem LoopInv_append (game_state : GameState) {hexagons : List (Coord × ℚ)}
    {cells : List (Coord × Cell)} {d : Coord} (daughter : Cell)
    (hinv : LoopInv game_state ⟨hexagons, cells⟩)
    (hdg : (lookupKey d hexagons).isSome)
    (hdc : lookupKey d cells = none)
    (hthr : daughter.division_threshold = game_state.cell_division_threshold)
    (haff : 0 < daughter.energy_affinity)
    (hecm : 0 < daughter.energy_consumption_rate_maximum)
    (hen : daughter.energy_value ≤ game_state.cell_division_threshold) :
    LoopInv game_state ⟨hexagons, cells ++ [(d, daughter)]⟩ := by
  obtain ⟨h1, h2, h3, h4, h5, h6, h7, h8, h9⟩ := hinv
  have hd : d ∉ keysOf cells := lookupKey_eq_none.mp hdc
  refine ⟨h1, ?_, ?_, h4, h5, h6, ?_, ?_, ?_⟩
  · rw [keysOf_append, List.nodup_append]
    refine ⟨h2, List.nodup_singleton _, ?_⟩
    intro a ha hb
    rw [keysOf_cons, keysOf_nil, List.mem_singleton] at hb
    subst hb
    exact hd ha
  · intro p hp
    rcases List.mem_append.mp hp with hmem | hmem
    · exact h3 p hmem
    · rw [List.mem_singleton] at hmem
      subst hmem
      exact hdg
  · intro p hp
    rcases List.mem_append.mp hp with hmem | hmem
    · exact h7 p hmem
    · rw [List.mem_singleton] at hmem
      subst hmem
      exact ⟨hthr, haff, hecm, hen⟩
  · intro q hq hnone
    simp only [] at hnone
    rw [lookupKey_append_eq_none_iff] at hnone
    exact h8 q hq hnone.1
  · intro p hp hpg
    rcases List.mem_append.mp hp with hmem | hmem
    · exact h9 p hmem hpg
    · rw [List.mem_singleton] at hmem
      subst hmem
      simp only []
      rcases Option.isSome_iff_exists.mp hdg with ⟨nv, hnv⟩
      rw [hnv]
      simp only [Option.getD_some]
      exact h8 (d, nv) (lookupKey_mem hnv) hdc

theorem update_energy_le (n e : ℚ) (g : Bool) (ecm aff thr : ℚ) (h : e ≤ thr) :
    (update_nutrient_value n e g ecm aff thr).2.1 ≤ thr := by
  simp only [update_nutrient_value]
  split_ifs with h1 h2
  · exact h
  · have hm : min (min (ecm * n / (n + aff)) n) (thr - e) ≤ thr - e := min_le_right _ _
    simp only []
    linarith
  · have hm : min (min (ecm * n / (n + aff)) n) (thr - e) ≤ thr - e := min_le_right _ _
    simp only []
    linarith

theorem update_pos_of_growth (n e ecm aff thr : ℚ) (hn : 0 < n) :
    (update_nutrient_value n e true ecm aff thr).2.2 = true →
      0 < (update_nutrient_value n e true ecm aff thr).1 := by
  rw [update_nutrient_value_growth _ _ _ _ _ hn]
  by_cases hsnap : |n - uptake n e ecm aff thr| < 1/200
  · rw [if_pos hsnap]
    intro hcon
    cases hcon
  · rw [if_neg hsnap]
    intro _
    have hge : 1/200 ≤ |n - uptake n e ecm aff thr| := le_of_not_lt hsnap
    have hn0 : 0 ≤ n - uptake n e ecm aff thr := by
      have := uptake_le_nutrient n e ecm aff thr
      linarith
    rw [abs_of_nonneg hn0] at hge
    simp only []
    linarith

theorem replicate_cell_empty_eq (game_state : GameState)
    (choose : List Coord → Coord) (hexagons : List (Coord × ℚ))
    (cells : List (Coord × Cell)) (X : Coord)
    (hempty : (calculate_hexagon_neighbors X).filter
      (fun c => (lookupKey c hexagons).isSome && (lookupKey c cells).isNone) = []) :
    replicate_cell game_state choose hexagons cells X =
      (setKey X (fun c => { c with growth := false }) cells, none) := by
  simp only [replicate_cell]
  rw [hempty]
  rfl

theorem replicate_cell_success_eq (game_state : GameState)
    (choose : List Coord → Coord) (hexagons : List (Coord × ℚ))
    (cells : List (Coord × Cell)) (X : Coord) (mother : Cell)
    (hm : lookupKey X cells = some mother)
    (hchoose : choose ((calculate_hexagon_neighbors X).filter
      (fun c => (lookupKey c hexagons).isSome && (lookupKey c cells).isNone)) ∈
      (calculate_hexagon_neighbors X).filter
      (fun c => (lookupKey c hexagons).isSome && (lookupKey c cells).isNone)) :
    replicate_cell game_state choose hexagons cells X =
      (setKey X (fun c => { c with energy_value := c.energy_value / 2 }) cells ++
        [(choose ((calculate_hexagon_neighbors X).filter
          (fun c => (lookupKey c hexagons).isSome && (lookupKey c cells).isNone)),
          { Cell.init game_state 0 with energy_value := mother.energy_value / 2 })],
       some (choose ((calculate_hexagon_neighbors X).filter
        (fun c => (lookupKey c hexagons).isSome && (lookupKey c cells).isNone)))) := by
  set cands := (calculate_hexagon_neighbors X).filter
    (fun c => (lookupKey c hexagons).isSome && (lookupKey c cells).isNone) with hcands
  set d := choose cands with hd
  have hdn : lookupKey d cells = none := by
    have := List.of_mem_filter hchoose
    simp only [Bool.and_eq_true, Option.isNone_iff_eq_none] at this
    exact this.2
  have hdne : d ≠ X := by
    intro h
    rw [h, hm] at hdn
    cases hdn
  have hne : cands.isEmpty = false := by
    rcases cands with _ | _
    · cases hchoose
    · rfl
  have hlook1 : lookupKey X
      (setKey X (fun c => { c with energy_value := c.energy_value / 2 }) cells) =
      some { mother with energy_value := mother.energy_value / 2 } := by
    rw [lookupKey_setKey_self, hm]
    rfl
  have hlookd1 : lookupKey d
      (setKey X (fun c => { c with energy_value := c.energy_value / 2 }) cells) =
      none := by
    rw [lookupKey_setKey_ne hdne, hdn]
  simp only [replicate_cell]
  rw [← hcands, hne]
  simp only [Bool.false_eq_true, if_false, ← hd, hlook1, Option.map_some',
    Option.getD_some, dictInsert, hlookd1, Option.isSome_none]

/-- Installing a cell on a free tile strictly decreases the free-tile count,
whatever in-place updates accompany it. -/
theorem free_tile_count_append_lt (Yg : Coord) (gg : ℚ → ℚ) (X : Coord)
    (f : Cell → Cell) (hexagons : List (Coord × ℚ)) (cells : List (Coord × Cell))
    (d : Coord) (daughter : Cell)
    (hnd : (keysOf hexagons).Nodup)
    (hdg : (lookupKey d hexagons).isSome)
    (hdc : lookupKey d cells = none) :
    free_tile_count ⟨setKey Yg gg hexagons, setKey X f cells ++ [(d, daughter)]⟩ <
      free_tile_count ⟨hexagons, cells⟩ := by
  unfold free_tile_count
  simp only []
  rw [keysOf_setKey]
  have hpred : ∀ c ∈ keysOf hexagons,
      (lookupKey c (setKey X f cells ++ [(d, daughter)])).isNone =
        ((lookupKey c cells).isNone && !(c = d : Bool)) := by
    intro c _
    by_cases hcd : c = d
    · subst hcd
      have h1 : lookupKey c (setKey X f cells ++ [(c, daughter)]) ≠ none := by
        intro hcon
        rw [lookupKey_append_eq_none_iff] at hcon
        have := hcon.2
        rw [lookupKey_cons] at this
        simp at this
      rcases Option.ne_none_iff_exists'.mp h1 with ⟨v, hv⟩
      rw [hv]
      simp
    · rw [lookupKey_append]
      cases hsk : lookupKey c (setKey X f cells) with
      | some v =>
        have h2 : lookupKey c cells ≠ none := by
          intro hcon
          rw [(lookupKey_setKey_none_iff f cells).mpr hcon] at hsk
          cases hsk
        rcases Option.ne_none_iff_exists'.mp h2 with ⟨w, hw⟩
        rw [hw]
        simp
      | none =>
        have h2 : lookupKey c cells = none := (lookupKey_setKey_none_iff f cells).mp hsk
        rw [h2]
        simp [lookupKey, hcd, Ne.symm hcd]
  rw [List.filter_congr hpred]
  have hdk : d ∈ keysOf hexagons := lookupKey_isSome.mp hdg
  have hpd : (lookupKey d cells).isNone = true := by
    rw [hdc]
    rfl
  exact length_filter_and_lt _ d (keysOf hexagons) hnd hdk hpd

theorem measure_lt_trans (game_state : GameState) {a b c : SimState}
    (hab : measure_lt game_state a b) (hbc : measure_lt game_state b c) :
    measure_lt game_state a c := by
  rcases hab with h | ⟨h1, h2⟩ <;> rcases hbc with h' | ⟨h1', h2'⟩
  · exact Or.inl (lt_trans h h')
  · exact Or.inl (by omega)
  · exact Or.inl (by omega)
  · exact Or.inr ⟨by omega, by omega⟩

/-- One fold step of the round loop either leaves the accumulator untouched
(dead or non-growing entry), or raises the `level_running` flag while
preserving the invariant and strictly decreasing the termination measure. -/
theorem cell_step_cases (game_state : GameState) (choose : List Coord → Coord)
    (hv : ∀ l : List Coord, l ≠ [] → choose l ∈ l)
    (acc : SimState × Bool) (entry : Coord × Cell)
    (hinv : LoopInv game_state acc.1) :
    cell_step game_state choose acc entry = acc ∨
      ((cell_step game_state choose acc entry).2 = true ∧
        LoopInv game_state (cell_step game_state choose acc entry).1 ∧
        measure_lt game_state (cell_step game_state choose acc entry).1 acc.1) := by
  obtain ⟨⟨hexagons, cells⟩, flag⟩ := acc
  have h1 := hinv.1
  have h2 := hinv.2.1
  have h3 := hinv.2.2.1
  have h4 := hinv.2.2.2.1
  have h5 := hinv.2.2.2.2.1
  have h6 := hinv.2.2.2.2.2.1
  have h7 := hinv.2.2.2.2.2.2.1
  have h9 := hinv.2.2.2.2.2.2.2.2
  cases hlook : lookupKey entry.1 cells with
  | none =>
    left
    simp only [cell_step, hlook]
  | some cell =>
    by_cases hgrow : cell.growth = true
    case neg =>
      left
      simp only [cell_step, hlook]
      rw [if_neg hgrow]
    case pos =>
      right
      have hXmem : (entry.1, cell) ∈ cells := lookupKey_mem hlook
      have hc7 := h7 (entry.1, cell) hXmem
      obtain ⟨nv, hnv⟩ : ∃ v, lookupKey entry.1 hexagons = some v :=
        Option.isSome_iff_exists.mp (h3 (entry.1, cell) hXmem)
      have hn : 0 < (lookupKey entry.1 hexagons).getD 0 :=
        h9 (entry.1, cell) hXmem hgrow
      by_cases hrepl : game_state.cell_division_threshold ≤ cell.energy_value
      case neg =>
        have he : cell.energy_value < game_state.cell_division_threshold :=
          lt_of_not_le hrepl
        have hstep : cell_step game_state choose (⟨hexagons, cells⟩, flag) entry =
            (⟨setKey entry.1 (fun _ =>
                (update_nutrient_value ((lookupKey entry.1 hexagons).getD 0)
                  cell.energy_value cell.growth
                  cell.energy_consumption_rate_maximum cell.energy_affinity
                  cell.division_threshold).1) hexagons,
              setKey entry.1 (fun c => { c with
                energy_value := (update_nutrient_value
                  ((lookupKey entry.1 hexagons).getD 0) cell.energy_value
                  cell.growth cell.energy_consumption_rate_maximum
                  cell.energy_affinity cell.division_threshold).2.1,
                growth := (update_nutrient_value
                  ((lookupKey entry.1 hexagons).getD 0) cell.energy_value
                  cell.growth cell.energy_consumption_rate_maximum
                  cell.energy_affinity cell.division_threshold).2.2 }) cells⟩,
             true) := by
          simp only [cell_step, hlook]
          rw [if_pos hgrow, if_neg hrepl, hlook]
          simp only [Option.getD_some]
        rw [hstep]
        simp only []
        refine ⟨trivial, ?_, ?_⟩
        · rw [setKey_eq_const _ cells h2 hlook]
          refine LoopInv_update game_state _ hinv hlook rfl rfl rfl ?_ ?_
          · have hethr : cell.energy_value ≤ cell.division_threshold := by
              rw [hc7.1]
              exact hc7.2.2.2
            exact le_of_le_of_eq
              (update_energy_le _ cell.energy_value cell.growth _ _ _ hethr)
              hc7.1
          · intro hg2
            rw [hgrow] at hg2 ⊢
            exact update_pos_of_growth _ _ _ _ _ hn hg2
        · refine Or.inr ⟨free_tile_count_setKey _ _ _ _ _ _, ?_⟩
          have hgrid : ∀ k : Coord, k ≠ entry.1 →
              lookupKey k (setKey entry.1 (fun _ =>
                (update_nutrient_value ((lookupKey entry.1 hexagons).getD 0)
                  cell.energy_value cell.growth
                  cell.energy_consumption_rate_maximum cell.energy_affinity
                  cell.division_threshold).1) hexagons) =
                lookupKey k hexagons := fun k hk => lookupKey_setKey_ne hk _ _
          have hexch := potential_sum_setKey game_state
            (fun c => { c with
              energy_value := (update_nutrient_value
                ((lookupKey entry.1 hexagons).getD 0) cell.energy_value
                cell.growth cell.energy_consumption_rate_maximum
                cell.energy_affinity cell.division_threshold).2.1,
              growth := (update_nutrient_value
                ((lookupKey entry.1 hexagons).getD 0) cell.energy_value
                cell.growth cell.energy_consumption_rate_maximum
                cell.energy_affinity cell.division_threshold).2.2 })
            hexagons _ cells h2 hlook hgrid
          have hl' : lookupKey entry.1 (setKey entry.1 (fun _ =>
              (update_nutrient_value ((lookupKey entry.1 hexagons).getD 0)
                cell.energy_value cell.growth
                cell.energy_consumption_rate_maximum cell.energy_affinity
                cell.division_threshold).1) hexagons) =
              some (update_nutrient_value ((lookupKey entry.1 hexagons).getD 0)
                cell.energy_value cell.growth
                cell.energy_consumption_rate_maximum cell.energy_affinity
                cell.division_threshold).1 := by
            rw [lookupKey_setKey_self, hnv]
            rfl
          rw [hl'] at hexch
          simp only [Option.getD_some] at hexch
          have habs := cell_potential_absorb_lt game_state cell
            ((lookupKey entry.1 hexagons).getD 0) hgrow hn hc7.1 hc7.2.1
            hc7.2.2.1 he
          omega
      case pos =>
        by_cases hcand : ((calculate_hexagon_neighbors entry.1).filter
            (fun c => (lookupKey c hexagons).isSome && (lookupKey c cells).isNone)) = []
        case pos =>
          have hstep : cell_step game_state choose (⟨hexagons, cells⟩, flag) entry =
              (⟨setKey entry.1 (fun _ => (lookupKey entry.1 hexagons).getD 0) hexagons,
                setKey entry.1 (fun c => { c with
                  energy_value := cell.energy_value, growth := false })
                  (setKey entry.1 (fun c => { c with growth := false }) cells)⟩,
               true) := by
            simp only [cell_step, hlook]
            rw [if_pos hgrow, if_pos hrepl,
              replicate_cell_empty_eq game_state choose hexagons cells entry.1 hcand]
            rw [lookupKey_setKey_self, hlook]
            simp only [Option.map_some', Option.getD_some]
            rw [update_nutrient_value_no_growth]
          rw [hstep]
          simp only []
          refine ⟨trivial, ?_, ?_⟩
          · rw [setKey_setKey, setKey_eq_const _ cells h2 hlook]
            refine LoopInv_update game_state _ hinv hlook rfl rfl rfl ?_ ?_
            · exact hc7.2.2.2
            · intro hcon
              simp at hcon
          · rw [setKey_setKey]
            refine Or.inr ⟨free_tile_count_setKey _ _ _ _ _ _, ?_⟩
            have hgrid : ∀ k : Coord, k ≠ entry.1 →
                lookupKey k (setKey entry.1
                  (fun _ => (lookupKey entry.1 hexagons).getD 0) hexagons) =
                lookupKey k hexagons := fun k hk => lookupKey_setKey_ne hk _ _
            have hexch := potential_sum_setKey game_state
              ((fun c => { c with
                  energy_value := cell.energy_value, growth := false }) ∘
                (fun c => { c with growth := (false : Bool) }))
              hexagons _ cells h2 hlook hgrid
            have hzero : cell_potential game_state
                (((fun c => { c with
                    energy_value := cell.energy_value, growth := false }) ∘
                  (fun c => { c with growth := (false : Bool) })) cell)
                ((lookupKey entry.1 (setKey entry.1
                  (fun _ => (lookupKey entry.1 hexagons).getD 0) hexagons)).getD 0) =
                0 := by
              simp [cell_potential, Function.comp]
            have hpos := cell_potential_pos game_state cell
              ((lookupKey entry.1 hexagons).getD 0) hgrow
            omega
        case neg =>
          have hchoose : choose ((calculate_hexagon_neighbors entry.1).filter
              (fun c => (lookupKey c hexagons).isSome && (lookupKey c cells).isNone)) ∈
              (calculate_hexagon_neighbors entry.1).filter
              (fun c => (lookupKey c hexagons).isSome && (lookupKey c cells).isNone) :=
            hv _ hcand
          have hdn : lookupKey (choose ((calculate_hexagon_neighbors entry.1).filter
              (fun c => (lookupKey c hexagons).isSome && (lookupKey c cells).isNone)))
              cells = none := by
            have := List.of_mem_filter hchoose
            simp only [Bool.and_eq_true, Option.isNone_iff_eq_none] at this
            exact this.2
          have hdg : (lookupKey (choose ((calculate_hexagon_neighbors entry.1).filter
              (fun c => (lookupKey c hexagons).isSome && (lookupKey c cells).isNone)))
              hexagons).isSome := by
            have := List.of_mem_filter hchoose
            simp only [Bool.and_eq_true] at this
            exact this.1
          have hdne : choose ((calculate_hexagon_neighbors entry.1).filter
              (fun c => (lookupKey c hexagons).isSome && (lookupKey c cells).isNone)) ≠
              entry.1 := by
            intro h
            rw [h, hlook] at hdn
            cases hdn
          have hstep : cell_step game_state choose (⟨hexagons, cells⟩, flag) entry =
              (⟨setKey entry.1 (fun _ =>
                  (update_nutrient_value ((lookupKey entry.1 hexagons).getD 0)
                    (cell.energy_value / 2) cell.growth
                    cell.energy_consumption_rate_maximum cell.energy_affinity
                    cell.division_threshold).1) hexagons,
                setKey entry.1 (fun c => { c with
                  energy_value := (update_nutrient_value
                    ((lookupKey entry.1 hexagons).getD 0) (cell.energy_value / 2)
                    cell.growth cell.energy_consumption_rate_maximum
                    cell.energy_affinity cell.division_threshold).2.1,
                  growth := (update_nutrient_value
                    ((lookupKey entry.1 hexagons).getD 0) (cell.energy_value / 2)
                    cell.growth cell.energy_consumption_rate_maximum
                    cell.energy_affinity cell.division_threshold).2.2 })
                  (setKey entry.1
                    (fun c => { c with energy_value := c.energy_value / 2 }) cells ++
                   [(choose ((calculate_hexagon_neighbors entry.1).filter
                      (fun c => (lookupKey c hexagons).isSome &&
                        (lookupKey c cells).isNone)),
                     { Cell.init game_state 0 with
                        energy_value := cell.energy_value / 2 })])⟩,
               true) := by
            simp only [cell_step, hlook]
            rw [if_pos hgrow, if_pos hrepl,
              replicate_cell_success_eq game_state choose hexagons cells entry.1
                cell hlook hchoose]
            rw [lookupKey_append, lookupKey_setKey_self, hlook]
            simp only [Option.map_some', Option.getD_some]
          have hen2 : cell.energy_value / 2 ≤ game_state.cell_division_threshold := by
            have := hc7.2.2.2
            linarith
          rw [hstep]
          simp only []
          have hdecomp : setKey entry.1 (fun c => { c with
              energy_value := (update_nutrient_value
                ((lookupKey entry.1 hexagons).getD 0) (cell.energy_value / 2)
                cell.growth cell.energy_consumption_rate_maximum
                cell.energy_affinity cell.division_threshold).2.1,
              growth := (update_nutrient_value
                ((lookupKey entry.1 hexagons).getD 0) (cell.energy_value / 2)
                cell.growth cell.energy_consumption_rate_maximum
                cell.energy_affinity cell.division_threshold).2.2 })
              (setKey entry.1
                (fun c => { c with energy_value := c.energy_value / 2 }) cells ++
               [(choose ((calculate_hexagon_neighbors entry.1).filter
                  (fun c => (lookupKey c hexagons).isSome &&
                    (lookupKey c cells).isNone)),
                 { Cell.init game_state 0 with
                    energy_value := cell.energy_value / 2 })]) =
              setKey entry.1 (fun _ => ((fun c => { c with
                energy_value := (update_nutrient_value
                  ((lookupKey entry.1 hexagons).getD 0) (cell.energy_value / 2)
                  cell.growth cell.energy_consumption_rate_maximum
                  cell.energy_affinity cell.division_threshold).2.1,
                growth := (update_nutrient_value
                  ((lookupKey entry.1 hexagons).getD 0) (cell.energy_value / 2)
                  cell.growth cell.energy_consumption_rate_maximum
                  cell.energy_affinity cell.division_threshold).2.2 }) ∘
                (fun c => { c with energy_value := c.energy_value / 2 })) cell) cells ++
              [(choose ((calculate_hexagon_neighbors entry.1).filter
                  (fun c => (lookupKey c hexagons).isSome &&
                    (lookupKey c cells).isNone)),
                 { Cell.init game_state 0 with
                    energy_value := cell.energy_value / 2 })] := by
            rw [setKey_append, setKey_singleton_ne hdne, setKey_setKey,
              setKey_eq_const _ cells h2 hlook]
          rw [hdecomp]
          refine ⟨trivial, ?_, ?_⟩
          · have hinv1 : LoopInv game_state ⟨setKey entry.1 (fun _ =>
                (update_nutrient_value ((lookupKey entry.1 hexagons).getD 0)
                  (cell.energy_value / 2) cell.growth
                  cell.energy_consumption_rate_maximum cell.energy_affinity
                  cell.division_threshold).1) hexagons,
                setKey entry.1 (fun _ => ((fun c => { c with
                  energy_value := (update_nutrient_value
                    ((lookupKey entry.1 hexagons).getD 0) (cell.energy_value / 2)
                    cell.growth cell.energy_consumption_rate_maximum
                    cell.energy_affinity cell.division_threshold).2.1,
                  growth := (update_nutrient_value
                    ((lookupKey entry.1 hexagons).getD 0) (cell.energy_value / 2)
                    cell.growth cell.energy_consumption_rate_maximum
                    cell.energy_affinity cell.division_threshold).2.2 }) ∘
                  (fun c => { c with energy_value := c.energy_value / 2 })) cell)
                  cells⟩ := by
              refine LoopInv_update game_state _ hinv hlook rfl rfl rfl ?_ ?_
              · have hethr2 : cell.energy_value / 2 ≤ cell.division_threshold := by
                  rw [hc7.1]
                  exact hen2
                exact le_of_le_of_eq
                  (update_energy_le _ (cell.energy_value / 2) cell.growth _ _ _
                    hethr2)
                  hc7.1
              · intro hg2
                simp only [Function.comp] at hg2
                rw [hgrow] at hg2
                rw [hgrow]
                exact update_pos_of_growth _ _ _ _ _ hn hg2
            refine LoopInv_append game_state _ hinv1 ?_ ?_ rfl h5 h6 hen2
            · rw [lookupKey_setKey_isSome]
              exact hdg
            · exact (lookupKey_setKey_none_iff _ _).mpr hdn
          · exact Or.inl (free_tile_count_append_lt _ _ _ _ _ _ _ _ h1 hdg hdn)

/-- Folding the per-entry step over any snapshot either changes nothing or
raises the flag, preserves the invariant and strictly decreases the measure. -/
theorem foldl_cell_step_cases (game_state : GameState)
    (choose : List Coord → Coord)
    (hv : ∀ l : List Coord, l ≠ [] → choose l ∈ l) :
    ∀ (entries : List (Coord × Cell)) (acc : SimState × Bool),
      LoopInv game_state acc.1 →
      entries.foldl (cell_step game_state choose) acc = acc ∨
        ((entries.foldl (cell_step game_state choose) acc).2 = true ∧
          LoopInv game_state (entries.foldl (cell_step game_state choose) acc).1 ∧
          measure_lt game_state
            (entries.foldl (cell_step game_state choose) acc).1 acc.1) := by
  intro entries
  induction entries with
  | nil =>
    intro acc _
    left
    rfl
  | cons e es ih =>
    intro acc hinv
    rw [List.foldl_cons]
    rcases cell_step_cases game_state choose hv acc e hinv with heq | ⟨hflag, hinv1, hlt⟩
    · rw [heq]
      exact ih acc hinv
    · rcases ih (cell_step game_state choose acc e) hinv1 with heq2 | ⟨hf2, hi2, hl2⟩
      · rw [heq2]
        right
        exact ⟨hflag, hinv1, hlt⟩
      · right
        exact ⟨hf2, hi2, measure_lt_trans game_state hl2 hlt⟩

/-- One tick of the round loop: either it fixes the state with the flag down
(the `DONE` condition), or the flag is up, the invariant holds again and the
termination measure strictly decreased. -/
theorem colonization_tick_cases (game_state : GameState)
    (choose : List Coord → Coord)
    (hv : ∀ l : List Coord, l ≠ [] → choose l ∈ l) (s : SimState)
    (hinv : LoopInv game_state s) :
    colonization_tick game_state choose s = (s, false) ∨
      ((colonization_tick game_state choose s).2 = true ∧
        LoopInv game_state (colonization_tick game_state choose s).1 ∧
        measure_lt game_state (colonization_tick game_state choose s).1 s) := by
  unfold colonization_tick
  exact foldl_cell_step_cases game_state choose hv s.cells (s, false) hinv

theorem run_colonization_shift (game_state : GameState)
    (choose : ℕ → List Coord → Coord) (s : SimState) :
    ∀ n, run_colonization game_state choose s (n + 1) =
      run_colonization game_state (fun k => choose (k + 1))
        (colonization_tick game_state (choose 0) s).1 n := by
  intro n
  induction n with
  | zero => rfl
  | succ m ih =>
    simp only [run_colonization] at ih ⊢
    rw [ih]

theorem level_running_shift (game_state : GameState)
    (choose : ℕ → List Coord → Coord) (s : SimState) (n : ℕ) :
    level_running game_state choose s (n + 1) =
      level_running game_state (fun k => choose (k + 1))
        (colonization_tick game_state (choose 0) s).1 n := by
  unfold level_running
  rw [run_colonization_shift]

/-- Well-founded descent on the pair (free tiles, total potential): under the
loop invariant the round loop reaches a tick whose flag is down. -/
theorem loop_terminates_aux (game_state : GameState) :
    ∀ F P : ℕ, ∀ s : SimState, ∀ choose : ℕ → List Coord → Coord,
      (∀ i (l : List Coord), l ≠ [] → choose i l ∈ l) →
      LoopInv game_state s →
      free_tile_count s < F → potential_sum game_state s < P →
      ∃ n, level_running game_state choose s n = false := by
  intro F
  induction F with
  | zero =>
    intro P s choose _ _ hF _
    omega
  | succ F ihF =>
    intro P
    induction P with
    | zero =>
      intro s choose _ _ _ hP
      omega
    | succ P ihP =>
      intro s choose hv hinv hF hP
      rcases colonization_tick_cases game_state (choose 0)
          (fun l h => hv 0 l h) s hinv with hdone | ⟨_, hinv1, hlt⟩
      · refine ⟨0, ?_⟩
        unfold level_running run_colonization
        rw [hdone]
      · rcases hlt with hfree | ⟨hfeq, hpot⟩
        · rcases ihF
            (potential_sum game_state
              (colonization_tick game_state (choose 0) s).1 + 1)
            (colonization_tick game_state (choose 0) s).1
            (fun k => choose (k + 1)) (fun i l h => hv (i + 1) l h)
            hinv1 (by omega) (by omega) with ⟨n, hn⟩
          refine ⟨n + 1, ?_⟩
          rw [level_running_shift]
          exact hn
        · rcases ihP (colonization_tick game_state (choose 0) s).1
            (fun k => choose (k + 1)) (fun i l h => hv (i + 1) l h)
            hinv1 (by omega) (by omega) with ⟨n, hn⟩
          refine ⟨n + 1, ?_⟩
          rw [level_running_shift]
          exact hn

end LoopLemmas

theorem setKey_singleton_self {β : Type} (X : Coord) (f : β → β) (v : β) :
    setKey X f [(X, v)] = [(X, f v)] := by
  simp [setKey]

/-- A growing cell with energy below the division threshold sitting on a tile
of nutrient exactly `0` is a fixed point of the tick that still reports the
level as running. -/
theorem stalled_tick (game_state : GameState) (g : List Coord → Coord)
    (X : Coord) (cell : Cell) (hgrow : cell.growth = true)
    (hlt : ¬ game_state.cell_division_threshold ≤ cell.energy_value) :
    colonization_tick game_state g ⟨[(X, (0:ℚ))], [(X, cell)]⟩ =
      (⟨[(X, (0:ℚ))], [(X, cell)]⟩, true) := by
  have hl : lookupKey X [(X, cell)] = some cell := by
    rw [lookupKey_cons, if_pos rfl]
  have hg : lookupKey X [(X, (0:ℚ))] = some (0:ℚ) := by
    rw [lookupKey_cons, if_pos rfl]
  unfold colonization_tick
  simp only []
  rw [List.foldl_cons, List.foldl_nil]
  simp only [cell_step, hl]
  rw [if_pos hgrow, if_neg hlt, hl]
  simp only [hg, Option.getD_some]
  rw [update_nutrient_value_depleted _ _ _ _ _ _ le_rfl]
  rw [setKey_singleton_self, setKey_singleton_self]

theorem stalled_run (game_state : GameState)
    (choose : ℕ → List Coord → Coord) (X : Coord) (cell : Cell)
    (hgrow : cell.growth = true)
    (hlt : ¬ game_state.cell_division_threshold ≤ cell.energy_value) :
    ∀ n, run_colonization game_state choose ⟨[(X, (0:ℚ))], [(X, cell)]⟩ n =
      ⟨[(X, (0:ℚ))], [(X, cell)]⟩ := by
  intro n
  induction n with
  | zero => rfl
  | succ m ih =>
    simp only [run_colonization, ih]
    rw [stalled_tick game_state (choose m) X cell hgrow hlt]

/-- **C5** (counterexample): the round loop does *not* always terminate.  With
positive configured kinetic parameters (as the claim's "valid configuration"
requires), a nonempty grid and a nonempty cell set, a growing cell whose
energy is below the division threshold and whose tile holds nutrient exactly
`0` makes the simulator a no-op while `growth` stays `true`, so
`level_running` is `true` on every tick and `DONE` is never reached.  A
zero-nutrient tile is producible by round setup, since
`hexagon_nutrient_richness = 1` leaves nutrient `1 - richness = 0` on every
colonized tile. -/
theorem C5_termination_counterexample :
    ∃ (game_state : GameState) (choose : ℕ → List Coord → Coord) (s : SimState),
      0 < game_state.cell_division_threshold ∧
      0 < game_state.cell_energy_affinity ∧
      0 < game_state.cell_energy_consumption_rate_maximum ∧
      s.hexagons ≠ [] ∧ s.cells ≠ [] ∧
      ∀ n, level_running game_state choose s n = true := by
  refine ⟨⟨1, 0, 1, 1/40, 3/10, 1/2, 1/5⟩,
    fun _ l => l.headD ((0:ℤ), (0:ℤ)),
    ⟨[(((0:ℤ), (0:ℤ)), (0:ℚ))],
      [(((0:ℤ), (0:ℤ)), (⟨1/2, true, 3/10, 1, 1/40⟩ : Cell))]⟩,
    by norm_num, by norm_num, by norm_num, by simp, by simp, ?_⟩
  intro n
  unfold level_running
  rw [stalled_run _ _ _ _ rfl (by norm_num), stalled_tick _ _ _ _ rfl (by norm_num)]

/-- **C5** (amended): under the loop invariant `LoopInv` — well-formed grid
and cell dictionaries, positive configured kinetic parameters, per-cell
thresholds equal to the configured one, cell energies within the threshold,
and *strictly positive* nutrient on every unoccupied tile and under every
still-growing cell — the round loop reaches `DONE` (a tick whose
`level_running` flag is `false`) after finitely many ticks, for every
replication-site chooser satisfying the `random.choice` contract. -/
theorem C5_round_loop_terminates_amended (game_state : GameState)
    (choose : ℕ → List Coord → Coord) (s : SimState)
    (hv : ∀ i (l : List Coord), l ≠ [] → choose i l ∈ l)
    (hinv : LoopInv game_state s) :
    ∃ n, level_running game_state choose s n = false :=
  loop_terminates_aux game_state (free_tile_count s + 1)
    (potential_sum game_state s + 1) s choose hv hinv
    (Nat.lt_succ_self _) (Nat.lt_succ_self _)

theorem C5_round_loop_terminates_amended_witness :
    ∃ n, level_running ⟨1, 0, 1, 1/40, 3/10, 1/2, 1/5⟩
      (fun _ l => l.headD ((0:ℤ), (0:ℤ)))
      ⟨[(((0:ℤ), (0:ℤ)), (1:ℚ))],
        [(((0:ℤ), (0:ℤ)), (⟨1/2, true, 3/10, 1, 1/40⟩ : Cell))]⟩ n = false := by
  refine C5_round_loop_terminates_amended _ _ _ ?_ ?_
  · intro i l hl
    cases l with
    | nil => exact absurd rfl hl
    | cons a t => exact List.mem_cons_self a t
  · refine ⟨?_, ?_, ?_, by norm_num, by norm_num, by norm_num, ?_, ?_, ?_⟩
    · simp [keysOf]
    · simp [keysOf]
    · intro p hp
      rw [List.mem_singleton] at hp
      subst hp
      simp [lookupKey]
    · intro p hp
      rw [List.mem_singleton] at hp
      subst hp
      refine ⟨rfl, by norm_num, by norm_num, by norm_num⟩
    · intro q hq
      rw [List.mem_singleton] at hq
      subst hq
      intro _
      norm_num
    · intro p hp
      rw [List.mem_singleton] at hp
      subst hp
      intro _
      norm_num [lookupKey]

end CytoGenesis
